import Mathlib

/-!
# A shallow embedding of the `sljs` tree-walking JavaScript interpreter

This file embeds the evaluator of the `sljs` repository (`src/interpret.rs`,
`src/ast.rs`) together with the heap/object model it runs on, and proves the
frozen claims about it.

Modelling conventions:

* Machine numbers: the interpreter's `f64` numbers are modelled by the
  fragment `JSNumber := Int ⊕ NaN` (integer-valued doubles plus NaN).  All
  verified claims only exercise integer-valued numbers; `/` and `%` on this
  fragment use integer semantics and infinities are not represented.
* The support modules `heap.rs`, `object.rs`, `function.rs`, `error.rs`,
  `prelude.rs` and `builtin/` are not part of the published sources; every
  definition standing in for them carries a doc comment starting with
  `Modelled from the spec:` and follows the specification's wording.
* Heap mutation is explicit state passing: evaluation functions take a `Heap`
  and return an `Outcome` that carries the updated heap, a thrown
  `Exception`, a Rust `panic` (process abort), or an out-of-fuel marker
  (the artificial bound that makes the recursion structural).
-/

set_option maxHeartbeats 2000000

namespace Sljs

/-- The numeric fragment used to model `f64`: integer-valued doubles plus
NaN.  (`sljs` stores `f64`; the claims under verification only exercise
integer values, NaN propagation and 32-bit conversions.) -/
inductive JSNumber where
  | int (i : Int)
  | nan
  deriving DecidableEq, Repr

/-- `JSValue` from the repository: the tagged runtime value.  `ref` holds an
arena index (`JSRef`). -/
inductive JSValue where
  | undefined
  | null
  | bool (b : Bool)
  | number (n : JSNumber)
  | string (s : String)
  | ref (r : Nat)
  deriving DecidableEq, Repr

/-- `Interpreted` from the repository: the result of evaluating an
expression, either an rvalue or an lvalue `Member { of, name }`. -/
inductive Interpreted where
  | Value (v : JSValue)
  | Member (of : Nat) (name : String)
  deriving DecidableEq, Repr

/-- `Interpreted::VOID`. -/
def Interpreted.VOID : Interpreted := .Value .undefined

/-- `Jump` from the repository: structured control transfer carried on the
error channel. -/
inductive Jump where
  | Return (result : Interpreted)
  | Break (label : Option String)
  | Continue (label : Option String)
  deriving DecidableEq, Repr

/-- The `Exception` sum type.  `UserThrown` and `Jump` are from
`interpret.rs`; the typed diagnostic errors stand in for the variants of the
missing `error.rs` (`TypeErrorSetReadonly` is the error that
`ignore_set_readonly` swallows; `TypeErrorNotArraylike` appears in
`source.rs`; `SyntaxTreeError` carries parse/shape diagnostics). -/
inductive Exception where
  | UserThrown (v : JSValue)
  | Jump (j : Jump)
  | TypeErrorSetReadonly (name : String)
  | TypeErrorNotObject (i : Interpreted)
  | TypeErrorCannotAssign (i : Interpreted)
  | TypeErrorCannotGetProperty (i : Interpreted) (attr : String)
  | TypeErrorNotCallable (i : Interpreted)
  | TypeErrorNotRef (v : JSValue)
  | TypeErrorCannotDelete (name : String)
  | TypeErrorNotArraylike (i : Interpreted)
  | ReferenceError (name : String)
  | SyntaxTreeError (msg : String)
  | NoLoopForContinueLabel (label : String)
  deriving DecidableEq, Repr

/-- `source::Location`: per-node source location (line/column of start and
end position; the `end` field is called `stop` because `end` is a Lean
keyword). -/
structure Location where
  start : Nat × Nat
  stop : Nat × Nat
  deriving DecidableEq, Repr

/-- The fragment of the `JSON` value type that AST `Literal` nodes carry. -/
inductive JSON where
  | null
  | jbool (b : Bool)
  | number (i : Int)
  | string (s : String)
  deriving DecidableEq, Repr

/-- `ast::Literal`. -/
inductive Literal where
  | mk (value : JSON)
  deriving DecidableEq, Repr

/-- `Literal::to_value`. -/
def Literal.to_value : Literal → JSValue
  | .mk .null => .null
  | .mk (.jbool b) => .bool b
  | .mk (.number i) => .number (.int i)
  | .mk (.string s) => .string s

/-- `ast::BinOp`. -/
inductive BinOp where
  | Plus | Minus | Star | Slash | Percent
  | EqEq | NotEq | EqEqEq | NotEqEq
  | Less | Greater | LtEq | GtEq
  | Pipe | Hat | Ampersand | LtLt | GtGt | GtGtGt
  | In | InstanceOf
  deriving DecidableEq, Repr

/-- `ast::BoolOp`. -/
inductive BoolOp where
  | And | Or
  deriving DecidableEq, Repr

/-- `ast::UnOp`. -/
inductive UnOp where
  | Exclamation | Minus | Plus | Tilde | Typeof | Void | Delete
  deriving DecidableEq, Repr

/-- `ast::UpdOp`. -/
inductive UpdOp where
  | Increment | Decrement
  deriving DecidableEq, Repr

/-- `ast::AssignOp(Option<BinOp>)`. -/
inductive AssignOp where
  | mk (op : Option BinOp)
  deriving DecidableEq, Repr

/-- `ast::DeclarationKind`. -/
inductive DeclarationKind where
  | Var | Let | Const
  deriving DecidableEq, Repr

mutual

/-- `ast::Statement`: a `Stmt` with an optional source location. -/
inductive Statement where
  | mk (stmt : Stmt) (loc : Option Location)

/-- `ast::Stmt`. -/
inductive Stmt where
  | Empty
  | Block (s : BlockStatement)
  | Expr (s : ExpressionStatement)
  | If (s : IfStatement)
  | Switch (s : SwitchStatement)
  | For (s : ForStatement)
  | ForIn (s : ForInStatement)
  | Return (s : ReturnStatement)
  | Break (s : BreakStatement)
  | Continue (s : ContinueStatement)
  | Label (s : LabelStatement)
  | Throw (s : ThrowStatement)
  | Try (s : TryStatement)
  | Variable (s : VariableDeclaration)
  | Function (s : FunctionDeclaration)

/-- `ast::ExpressionStatement`. -/
inductive ExpressionStatement where
  | mk (expression : Expression)

/-- `ast::BlockStatement`: statements plus the parser-computed set of
block-scoped bindings (`HashSet<Identifier>`, modelled as a list). -/
inductive BlockStatement where
  | mk (body : List Statement) (bindings : List String)

/-- `ast::IfStatement`. -/
inductive IfStatement where
  | mk (test : Expression) (consequent : Statement) (alternate : Option Statement)

/-- `ast::SwitchStatement`. -/
inductive SwitchStatement where
  | mk (discriminant : Expression) (cases : List SwitchCase)

/-- `ast::SwitchCase`: `test = none` is the `default` case. -/
inductive SwitchCase where
  | mk (test : Option Expression) (consequent : List Statement)

/-- `ast::ForStatement`. -/
inductive ForStatement where
  | mk (init : Statement) (test : Option Expression) (update : Option Expression) (body : Statement)

/-- `ast::ForInStatement`. -/
inductive ForInStatement where
  | mk (left : ForInTarget) (right : Expression) (body : Statement)

/-- `ast::ForInTarget`. -/
inductive ForInTarget where
  | Var (v : VariableDeclaration)
  | Expr (e : Expression)

/-- `ast::ReturnStatement`. -/
inductive ReturnStatement where
  | mk (argument : Option Expression)

/-- `ast::BreakStatement`. -/
inductive BreakStatement where
  | mk (label : Option String)

/-- `ast::ContinueStatement`. -/
inductive ContinueStatement where
  | mk (label : Option String)

/-- `ast::LabelStatement`. -/
inductive LabelStatement where
  | mk (label : String) (body : Statement)

/-- `ast::ThrowStatement`. -/
inductive ThrowStatement where
  | mk (argument : Expression)

/-- `ast::TryStatement`. -/
inductive TryStatement where
  | mk (block : BlockStatement) (handler : Option CatchClause) (finalizer : Option BlockStatement)

/-- `ast::CatchClause` (`Pattern` is an identifier). -/
inductive CatchClause where
  | mk (param : String) (body : BlockStatement)

/-- `ast::VariableDeclaration`. -/
inductive VariableDeclaration where
  | mk (kind : DeclarationKind) (declarations : List VariableDeclarator)

/-- `ast::VariableDeclarator`. -/
inductive VariableDeclarator where
  | mk (name : String) (init : Option Expression)

/-- `ast::FunctionDeclaration`. -/
inductive FunctionDeclaration where
  | mk (id : String) (function : FunctionExpression)

/-- `ast::FunctionExpression` (the `Rc` indirection is dropped). -/
inductive FunctionExpression where
  | mk (func : Function)

/-- `ast::Function`: parameters, parser-computed declaration sets, body. -/
inductive Function where
  | mk (id : Option String) (params : List String) (vars : List String)
       (functions : List FunctionDeclaration) (free_variables : List String)
       (body : BlockStatement) (is_generator : Bool) (is_expression : Bool) (is_async : Bool)

/-- `ast::Expression`: an `Expr` with an optional source location. -/
inductive Expression where
  | mk (expr : Expr) (loc : Option Location)

/-- `ast::Expr`. -/
inductive Expr where
  | Literal (l : Literal)
  | Identifier (name : String)
  | BinaryOp (e : BinaryExpression)
  | LogicalOp (e : LogicalExpression)
  | Call (e : CallExpression)
  | Array (e : ArrayExpression)
  | Member (e : MemberExpression)
  | Object (e : ObjectExpression)
  | Assign (e : AssignmentExpression)
  | Conditional (e : ConditionalExpression)
  | Unary (e : UnaryExpression)
  | Update (e : UpdateExpression)
  | Sequence (e : SequenceExpression)
  | Function (e : FunctionExpression)
  | This
  | New (e : NewExpression)

/-- `ast::BinaryExpression`. -/
inductive BinaryExpression where
  | mk (l : Expression) (op : BinOp) (r : Expression)

/-- `ast::LogicalExpression`. -/
inductive LogicalExpression where
  | mk (l : Expression) (op : BoolOp) (r : Expression)

/-- `ast::UnaryExpression`. -/
inductive UnaryExpression where
  | mk (op : UnOp) (arg : Expression)

/-- `ast::UpdateExpression` (the `bool` is the prefix flag). -/
inductive UpdateExpression where
  | mk (op : UpdOp) (pre : Bool) (arg : Expression)

/-- `ast::CallExpression`. -/
inductive CallExpression where
  | mk (callee : Expression) (arguments : List Expression)

/-- `ast::ArrayExpression`. -/
inductive ArrayExpression where
  | mk (elements : List Expression)

/-- `ast::ObjectExpression`: key/value pairs in source order. -/
inductive ObjectExpression where
  | mk (properties : List ObjectProperty)

/-- One `(ObjectKey, Expression)` pair of an object expression. -/
inductive ObjectProperty where
  | mk (key : ObjectKey) (value : Expression)

/-- `ast::ObjectKey`. -/
inductive ObjectKey where
  | Computed (e : Expression)
  | Identifier (s : String)

/-- `ast::MemberExpression` (object, property, computed flag). -/
inductive MemberExpression where
  | mk (obj : Expression) (prop : Expression) (computed : Bool)

/-- `ast::SequenceExpression`. -/
inductive SequenceExpression where
  | mk (exprs : List Expression)

/-- `ast::AssignmentExpression`. -/
inductive AssignmentExpression where
  | mk (target : Expression) (op : AssignOp) (value : Expression)

/-- `ast::ConditionalExpression`. -/
inductive ConditionalExpression where
  | mk (condexpr : Expression) (thenexpr : Expression) (elseexpr : Expression)

/-- `ast::NewExpression`. -/
inductive NewExpression where
  | mk (callee : Expression) (arguments : List Expression)

end

/-- `ast::Program`: top-level body plus parser-computed hoisting sets. -/
structure Program where
  body : BlockStatement
  vars : List String
  functions : List FunctionDeclaration

def Statement.stmt : Statement → Stmt
  | .mk s _ => s

def Statement.loc : Statement → Option Location
  | .mk _ l => l

def Expression.expr : Expression → Expr
  | .mk e _ => e

def Expression.loc : Expression → Option Location
  | .mk _ l => l

def BlockStatement.body : BlockStatement → List Statement
  | .mk b _ => b

def BlockStatement.bindings : BlockStatement → List String
  | .mk _ bs => bs

def SwitchStatement.discriminant : SwitchStatement → Expression
  | .mk d _ => d

def SwitchStatement.cases : SwitchStatement → List SwitchCase
  | .mk _ cs => cs

def SwitchCase.test : SwitchCase → Option Expression
  | .mk t _ => t

def SwitchCase.consequent : SwitchCase → List Statement
  | .mk _ c => c

def TryStatement.block : TryStatement → BlockStatement
  | .mk b _ _ => b

def TryStatement.handler : TryStatement → Option CatchClause
  | .mk _ h _ => h

def TryStatement.finalizer : TryStatement → Option BlockStatement
  | .mk _ _ f => f

def CatchClause.param : CatchClause → String
  | .mk p _ => p

def CatchClause.body : CatchClause → BlockStatement
  | .mk _ b => b

def VariableDeclaration.declarations : VariableDeclaration → List VariableDeclarator
  | .mk _ ds => ds

def VariableDeclarator.name : VariableDeclarator → String
  | .mk n _ => n

def VariableDeclarator.init : VariableDeclarator → Option Expression
  | .mk _ i => i

def FunctionDeclaration.id : FunctionDeclaration → String
  | .mk i _ => i

def FunctionDeclaration.function : FunctionDeclaration → FunctionExpression
  | .mk _ f => f

def FunctionExpression.func : FunctionExpression → Function
  | .mk f => f

def Function.params : Function → List String
  | .mk _ ps _ _ _ _ _ _ _ => ps

def Function.vars : Function → List String
  | .mk _ _ vs _ _ _ _ _ _ => vs

def Function.functions : Function → List FunctionDeclaration
  | .mk _ _ _ fs _ _ _ _ _ => fs

def Function.body : Function → BlockStatement
  | .mk _ _ _ _ _ b _ _ _ => b

def ForStatement.init : ForStatement → Statement
  | .mk i _ _ _ => i

def ForStatement.test : ForStatement → Option Expression
  | .mk _ t _ _ => t

def ForStatement.update : ForStatement → Option Expression
  | .mk _ _ u _ => u

def ForStatement.body : ForStatement → Statement
  | .mk _ _ _ b => b

def ForInStatement.left : ForInStatement → ForInTarget
  | .mk l _ _ => l

def ForInStatement.right : ForInStatement → Expression
  | .mk _ r _ => r

def ForInStatement.body : ForInStatement → Statement
  | .mk _ _ b => b

/-! ## Object and heap model -/

/-- Modelled from the spec: `object::Access`, "a bitset with three
independent flags: `WRITE`, `ENUM`, `CONF`" (`object.rs` is not under
`src/`). -/
structure Access where
  write : Bool
  enumerable : Bool
  configurable : Bool
  deriving DecidableEq, Repr

/-- Modelled from the spec: default access for plain properties is
`WRITE|ENUM|CONF`. -/
def Access.full : Access := ⟨true, true, true⟩

/-- Modelled from the spec: access of `set_hidden` bookkeeping slots
(non-enumerable). -/
def Access.hidden : Access := ⟨true, false, true⟩

/-- Modelled from the spec: access of `set_nonconf` slots
(non-configurable). -/
def Access.nonconf : Access := ⟨true, true, false⟩

/-- Modelled from the spec: access of "system" slots such as
`[[saved_scope]]` and `[[this]]` — non-enumerable, non-configurable. -/
def Access.system : Access := ⟨true, false, false⟩

/-- Modelled from the spec: `object::Property`, a content/access pair.  The
`Content::Data | Content::System` split of the source is represented by the
access flags alone (system slots use `Access.system`). -/
structure Property where
  content : JSValue
  access : Access
  deriving DecidableEq, Repr

/-- Modelled from the spec: a `Closure` holds the `Function` AST node plus
the captured lexical scope (`function.rs` is not under `src/`). -/
structure Closure where
  function : Function
  captured_scope : Nat

/-- Modelled from the spec: the object payload.  The `String`, `HostFn` and
`Error` payload variants of the source are omitted: no evaluator rule under
verification constructs them (host functions and the built-in library are
out of the specified core). -/
inductive ObjectPayload where
  | none
  | array (storage : List JSValue)
  | closure (c : Closure)

/-- Modelled from the spec: `JSObject` — an insertion-ordered property map
(association list, keys unique), a prototype reference, and an optional
payload.  Fresh objects have `proto = NULL`: the built-in
`Object.prototype`/`Array.prototype` wiring of the real heap is part of the
out-of-scope standard library. -/
structure JSObject where
  properties : List (String × Property)
  proto : Nat
  payload : ObjectPayload

instance : Inhabited JSObject := ⟨{ properties := [], proto := 0, payload := .none }⟩

/-- Modelled from the spec: the `Heap` — the object arena, the current local
scope (`None` when executing at top level), and the ephemeral source
location used for diagnostics. -/
structure Heap where
  objects : List JSObject
  local_scope : Option Nat
  loc : Option Location

/-- `Heap::NULL`: the null reference sentinel.  In this model it is index 0,
which holds an unused dummy slot so that every `Ref` index is in range. -/
def Heap.NULL : Nat := 0

/-- `Heap::GLOBAL`: the global object, fixed at heap creation. -/
def Heap.GLOBAL : Nat := 1

/-- Modelled from the spec: `Heap::new()` — the arena holding only the
global object (the built-in library registered by the real `Heap::new` is
out of the specified core).  Index 0 is the `NULL` dummy slot. -/
def Heap.new : Heap :=
  { objects := [default, { properties := [], proto := Heap.NULL, payload := .none }]
    local_scope := none
    loc := none }

/-- `Heap::get` (total model: an out-of-range or `NULL` index yields the
dummy object; the Rust code panics on `NULL` and never stores it). -/
def Heap.getObj (h : Heap) (r : Nat) : JSObject :=
  h.objects.getD r default

/-- `Heap::get_mut` as a functional update. -/
def Heap.setObj (h : Heap) (r : Nat) (o : JSObject) : Heap :=
  { h with objects := h.objects.set r o }

/-- `Heap::alloc`: append and return the stable index. -/
def Heap.alloc (h : Heap) (o : JSObject) : Nat × Heap :=
  (h.objects.length, { h with objects := h.objects ++ [o] })

/-- The per-evaluation outcome: a result or a thrown `Exception` (each with
the mutated heap), a Rust `panic` (process abort, no heap survives), or fuel
exhaustion (artifact of the structural-recursion bound). -/
inductive Outcome (α : Type) where
  | ok (a : α) (h : Heap)
  | err (e : Exception) (h : Heap)
  | rtPanic (msg : String)
  | outOfFuel

/-- Sequencing on `Outcome`: the Rust `?` operator (errors, panics and fuel
exhaustion propagate; the heap threads through). -/
def Outcome.then {α β : Type} (o : Outcome α) (f : α → Heap → Outcome β) : Outcome β :=
  match o with
  | .ok a h => f a h
  | .err e h => .err e h
  | .rtPanic m => .rtPanic m
  | .outOfFuel => .outOfFuel

/-- Lift a heap-free `Result` into an `Outcome` at the current heap. -/
def liftExc {α : Type} (r : Except Exception α) (h : Heap) : Outcome α :=
  match r with
  | .ok a => .ok a h
  | .error e => .err e h

/-- Extract the result of a completed evaluation. -/
def Outcome.value? {α : Type} : Outcome α → Option α
  | .ok a _ => some a
  | _ => Option.none

/-- Extract the exception of a failed evaluation. -/
def Outcome.error? {α : Type} : Outcome α → Option Exception
  | .err e _ => some e
  | _ => Option.none

/-- Extract the final heap of a completed or failed evaluation. -/
def Outcome.heap? {α : Type} : Outcome α → Option Heap
  | .ok _ h => some h
  | .err _ h => some h
  | _ => Option.none

/-! ## Numeric operations (the integer-or-NaN fragment of `f64`) -/

/-- Lift a binary integer operation; NaN propagates as in IEEE-754. -/
def JSNumber.lift2 (f : Int → Int → Int) : JSNumber → JSNumber → JSNumber
  | .int a, .int b => .int (f a b)
  | _, _ => .nan

def JSNumber.add : JSNumber → JSNumber → JSNumber := JSNumber.lift2 (· + ·)

def JSNumber.sub : JSNumber → JSNumber → JSNumber := JSNumber.lift2 (· - ·)

def JSNumber.mul : JSNumber → JSNumber → JSNumber := JSNumber.lift2 (· * ·)

/-- Division on the modelled fragment (integer division; a zero divisor
yields NaN since infinities are not represented). -/
def JSNumber.div : JSNumber → JSNumber → JSNumber
  | .int a, .int b => if b = 0 then .nan else .int (Int.fdiv a b)
  | _, _ => .nan

/-- Remainder on the modelled fragment. -/
def JSNumber.rem : JSNumber → JSNumber → JSNumber
  | .int a, .int b => if b = 0 then .nan else .int (Int.fmod a b)
  | _, _ => .nan

/-- A comparison on the fragment: any comparison involving NaN is false. -/
def JSNumber.cmpWith (f : Int → Int → Bool) : JSNumber → JSNumber → Bool
  | .int a, .int b => f a b
  | _, _ => false

/-- Rust `f64 as i32`: a saturating cast; NaN maps to 0. -/
def JSNumber.rust_as_i32 : JSNumber → Int
  | .nan => 0
  | .int i => max (-2147483648) (min i 2147483647)

/-- Rust `f64 as u32`: a saturating cast; NaN and negatives map to 0. -/
def JSNumber.rust_as_u32 : JSNumber → Nat
  | .nan => 0
  | .int i => (max 0 (min i 4294967295)).toNat

/-- The two's-complement bit pattern (as a `Nat` below `2^32`) of an `i32`
value. -/
def i32Bits (i : Int) : Nat := (i % 4294967296).toNat

/-- Read a 32-bit pattern back as a signed `i32` value. -/
def i32OfBits (n : Nat) : Int :=
  if n < 2147483648 then (n : Int) else (n : Int) - 4294967296

/-! ## Value operations

`JSValue::{boolify, numberify, stringify, strict_eq, loose_eq, compare,
plus, minus, numerically, type_of, to_ref, objectify}` live in the missing
`value.rs`/`object.rs`; they are modelled from the spec (§3 "Value",
§4.3 "Binary").  In this model they read the heap but never mutate it
(the real code threads `&mut Heap` for `valueOf`/`toString` conversions on
objects, which belong to the out-of-scope built-in library). -/

/-- The digit run of `parseIndex`: one or more ASCII digits whose value
fits `usize` (64-bit target, so at most `2^64 - 1`); `str::parse` fails on
an empty run, a non-digit, or overflow. -/
def parseIndexDigits (cs : List Char) : Option Nat :=
  if cs.isEmpty then Option.none
  else if cs.all Char.isDigit then
    let n := cs.foldl (fun n c => n * 10 + (c.toNat - 48)) 0
    if n ≤ 18446744073709551615 then some n else Option.none
  else Option.none

/-- `str::parse::<usize>` on a property key: an optional leading `+`
followed by one or more ASCII digits, the value within the 64-bit `usize`
range; anything else fails. -/
def parseIndex (s : String) : Option Nat :=
  match s.data with
  | '+' :: cs => parseIndexDigits cs
  | cs => parseIndexDigits cs

/-- Modelled from the spec: boolean coercion. -/
def JSValue.boolify : JSValue → Bool
  | .undefined => false
  | .null => false
  | .bool b => b
  | .number (.int i) => i ≠ 0
  | .number .nan => false
  | .string s => s ≠ ""
  | .ref _ => true

/-- Modelled from the spec: numeric coercion.  Objects coerce through
`valueOf` in the real code, which belongs to the out-of-scope built-ins;
here they yield NaN. -/
def JSValue.numberify : JSValue → JSNumber
  | .undefined => .nan
  | .null => .int 0
  | .bool b => .int (if b then 1 else 0)
  | .number n => n
  | .string s => if s = "" then .int 0 else
      match s.toInt? with
      | some i => .int i
      | Option.none => .nan
  | .ref _ => .nan

/-- Modelled from the spec: string coercion.  Integer-valued doubles print
without a fractional part; objects stringify through `toString` in the real
code (out-of-scope built-ins), here to the default `[object Object]`. -/
def JSValue.stringify : JSValue → String
  | .undefined => "undefined"
  | .null => "null"
  | .bool b => if b then "true" else "false"
  | .number (.int i) => toString i
  | .number .nan => "NaN"
  | .string s => s
  | .ref _ => "[object Object]"

/-- Modelled from the spec: strict equality — same tag, IEEE semantics for
numbers (`NaN ≠ NaN`), reference identity for objects. -/
def JSValue.strict_eq : JSValue → JSValue → Bool
  | .undefined, .undefined => true
  | .null, .null => true
  | .bool a, .bool b => a = b
  | .number (.int a), .number (.int b) => a = b
  | .string a, .string b => a = b
  | .ref a, .ref b => a = b
  | _, _ => false

/-- Modelled from the spec: loose equality — strict equality after the
standard coercions (`undefined == null`; numbers and strings/booleans
compare numerically; an object equals nothing but itself in this model,
`valueOf` being out-of-scope). -/
def JSValue.loose_eq (l r : JSValue) : Bool :=
  match l, r with
  | .undefined, .null => true
  | .null, .undefined => true
  | .number a, .string _ => JSNumber.cmpWith (· = ·) a r.numberify
  | .string _, .number b => JSNumber.cmpWith (· = ·) l.numberify b
  | .bool _, _ => JSNumber.cmpWith (· = ·) l.numberify r.numberify
  | _, .bool _ => JSNumber.cmpWith (· = ·) l.numberify r.numberify
  | _, _ => JSValue.strict_eq l r

/-- `JSValue::compare` — string comparison when both operands are strings,
numeric comparison otherwise (spec §4.3). -/
def JSValue.compare (l r : JSValue) (numf : JSNumber → JSNumber → Bool)
    (strf : String → String → Bool) : JSValue :=
  match l, r with
  | .string a, .string b => .bool (strf a b)
  | _, _ => .bool (numf l.numberify r.numberify)

/-- `JSValue::plus` — concatenation when either operand is a string,
numeric addition otherwise (spec §4.3). -/
def JSValue.plus (l r : JSValue) : Except Exception JSValue :=
  match l, r with
  | .string a, _ => .ok (.string (a ++ r.stringify))
  | _, .string b => .ok (.string (l.stringify ++ b))
  | _, _ => .ok (.number (JSNumber.add l.numberify r.numberify))

/-- `JSValue::minus` — numeric subtraction. -/
def JSValue.minus (l r : JSValue) : Except Exception JSValue :=
  .ok (.number (JSNumber.sub l.numberify r.numberify))

/-- `JSValue::numerically` — coerce both operands to numbers and apply the
given `f64` operation. -/
def JSValue.numerically (l r : JSValue) (f : JSNumber → JSNumber → JSNumber) : JSValue :=
  .number (f l.numberify r.numberify)

/-- `JSValue::to_ref` — the object reference, or a TypeError. -/
def JSValue.to_ref : JSValue → Except Exception Nat
  | .ref r => .ok r
  | v => .error (.TypeErrorNotRef v)

/-- Modelled from the spec: `JSValue::objectify` — coercion to an object
reference.  References map to themselves; every other value maps to `NULL`
(the real code wraps primitives in built-in prototype objects, which are
out of the specified core; the verified claims only objectify references). -/
def JSValue.objectify : JSValue → Nat
  | .ref r => r
  | _ => Heap.NULL

/-! ## Object property operations (modelled from spec §4.2) -/

/-- `object.properties.get(name)`: first (unique) binding of the key in the
insertion-ordered map. -/
def JSObject.getProp (o : JSObject) (name : String) : Option Property :=
  o.properties.lookup name

/-- Overwrite the binding of an existing key in place, or append a new one
(insertion order is preserved). -/
def updateProps : List (String × Property) → String → Property → List (String × Property)
  | [], n, p => [(n, p)]
  | (k, q) :: rest, n, p =>
      if k = n then (k, p) :: rest else (k, q) :: updateProps rest n p

/-- `JSObject::as_array` payload test. -/
def JSObject.isArray (o : JSObject) : Bool :=
  match o.payload with
  | .array _ => true
  | _ => false

/-- `JSObject::as_array` storage accessor. -/
def JSObject.arrayStorage (o : JSObject) : Option (List JSValue) :=
  match o.payload with
  | .array st => some st
  | _ => Option.none

/-- Modelled from the spec: the plain-map part of `set_property` — "if an
own property exists, overwrite only when `WRITE` is set (otherwise the
error that `ignore_set_readonly` swallows at the evaluator's call sites);
if not, create one with default `Access = WRITE|ENUM|CONF`". -/
def JSObject.setPropertyPlain (o : JSObject) (name : String) (v : JSValue) :
    Except Exception JSObject :=
  match o.getProp name with
  | some p =>
      if p.access.write
      then .ok { o with properties := updateProps o.properties name { p with content := v } }
      else .error (.TypeErrorSetReadonly name)
  | Option.none =>
      .ok { o with properties := o.properties ++ [(name, ⟨v, Access.full⟩)] }

/-- Modelled from the spec: `set_property` — "writes to the numeric index
of an array payload update storage and `length`" (integer-indexed writes
below `length` route to the storage vector); everything else goes to the
property map. -/
def JSObject.set_property (o : JSObject) (name : String) (v : JSValue) :
    Except Exception JSObject :=
  match o.payload with
  | .array st =>
      match parseIndex name with
      | some i =>
          if i < st.length
          then .ok { o with payload := .array (st.set i v) }
          else o.setPropertyPlain name v
      | Option.none => o.setPropertyPlain name v
  | _ => o.setPropertyPlain name v

/-- Modelled from the spec: `define_own_property` — create or re-flag a
property with explicit access bits. -/
def JSObject.define_own_property (o : JSObject) (name : String) (access : Access) :
    Except Exception JSObject :=
  match o.getProp name with
  | some p =>
      .ok { o with properties := updateProps o.properties name { p with access := access } }
  | Option.none =>
      .ok { o with properties := o.properties ++ [(name, ⟨.undefined, access⟩)] }

/-- Modelled from the spec: `set_hidden` — a non-enumerable bookkeeping
slot. -/
def JSObject.set_hidden (o : JSObject) (name : String) (v : JSValue) : JSObject :=
  { o with properties := updateProps o.properties name ⟨v, Access.hidden⟩ }

/-- Modelled from the spec: `set_nonconf` — a non-configurable slot. -/
def JSObject.set_nonconf (o : JSObject) (name : String) (v : JSValue) : JSObject :=
  { o with properties := updateProps o.properties name ⟨v, Access.nonconf⟩ }

/-- Modelled from the spec: `set_system` — a non-enumerable,
non-configurable bookkeeping slot (`[[saved_scope]]`, `[[this]]`). -/
def JSObject.set_system (o : JSObject) (name : String) (v : JSValue) : JSObject :=
  { o with properties := updateProps o.properties name ⟨v, Access.system⟩ }

/-- Modelled from the spec: `get_own_value` — own properties only; for the
array payload, `length` reflects `storage.len()` and integer indices below
`length` route to the storage vector. -/
def JSObject.get_own_value (o : JSObject) (name : String) : Option JSValue :=
  match o.payload with
  | .array st =>
      if name = "length" then some (.number (.int st.length)) else
      match parseIndex name with
      | some i => if i < st.length then st.get? i else (o.getProp name).map (·.content)
      | Option.none => (o.getProp name).map (·.content)
  | _ => (o.getProp name).map (·.content)

/-- Modelled from the spec: `JSObject::delete` — removes only if `CONF` is
set (otherwise the failure that makes a `delete` expression evaluate to
`false`); deleting an absent key succeeds. -/
def JSObject.deleteProp (o : JSObject) (name : String) : Except Exception JSObject :=
  match o.getProp name with
  | some p =>
      if p.access.configurable
      then .ok { o with properties := o.properties.filter (fun kv => kv.1 ≠ name) }
      else .error (.TypeErrorCannotDelete name)
  | Option.none => .ok o

/-- `JSObject::from_array`. -/
def JSObject.from_array (storage : List JSValue) : JSObject :=
  { properties := [], proto := Heap.NULL, payload := .array storage }

/-- `JSObject::from_closure`. -/
def JSObject.from_closure (c : Closure) : JSObject :=
  { properties := [], proto := Heap.NULL, payload := .closure c }

/-- `JSObject::new()`. -/
def JSObject.new : JSObject :=
  { properties := [], proto := Heap.NULL, payload := .none }

/-! ## Heap walks (modelled from spec §4.1) -/

/-- The object at an index of an arena (the walks below are phrased over
the arena list alone, so that they are untouched by updates to the heap's
ephemeral fields). -/
def getObjIn (objects : List JSObject) (r : Nat) : JSObject :=
  objects.getD r default

/-- The prototype-chain walk behind `lookup_value`, bounded by the arena
size (spec invariant 6: chains are acyclic, hence shorter than the arena). -/
def protoWalkIn (objects : List JSObject) (name : String) : Nat → Nat → Option JSValue
  | 0, _ => Option.none
  | n + 1, r =>
      if r = Heap.NULL then Option.none else
      match (getObjIn objects r).get_own_value name with
      | some v => some v
      | Option.none => protoWalkIn objects name n (getObjIn objects r).proto

/-- Modelled from the spec: `lookup_value` — own properties first, then the
prototype chain until found or `NULL`. -/
def Heap.lookupValueAt (h : Heap) (r : Nat) (name : String) : Option JSValue :=
  protoWalkIn h.objects name (h.objects.length + 1) r

/-- The prototype-chain walk that finds the object owning a binding (used
by `lookup_var`), bounded by the arena size. -/
def ownerWalkIn (objects : List JSObject) (name : String) : Nat → Nat → Option Nat
  | 0, _ => Option.none
  | n + 1, r =>
      if r = Heap.NULL then Option.none else
      match (getObjIn objects r).get_own_value name with
      | some _ => some r
      | Option.none => ownerWalkIn objects name n (getObjIn objects r).proto

/-- `Heap::SAVED_SCOPE`: the `[[saved_scope]]` system slot. -/
def Heap.SAVED_SCOPE : String := "[[saved_scope]]"

/-- The `[[this]]` system slot. -/
def Heap.THIS : String := "[[this]]"

/-- The lexically enclosing scope of a scope object, read from its
`[[saved_scope]]` system slot. -/
def savedScopeIn (objects : List JSObject) (r : Nat) : Option Nat :=
  match (getObjIn objects r).getProp Heap.SAVED_SCOPE with
  | some ⟨.ref pr, _⟩ => some pr
  | _ => Option.none

/-- The scope-chain walk of `lookup_var`: at each scope, search its
`__proto__` chain, then follow `[[saved_scope]]`; bounded by the arena
size. -/
def scopeWalkIn (objects : List JSObject) (name : String) : Nat → Nat → Option Nat
  | 0, _ => Option.none
  | n + 1, s =>
      match ownerWalkIn objects name (objects.length + 1) s with
      | some owner => some owner
      | Option.none =>
          match savedScopeIn objects s with
          | some parent => scopeWalkIn objects name n parent
          | Option.none => Option.none

/-- Modelled from the spec: `lookup_var` — walks the current scope's
`__proto__` chain followed by the `[[saved_scope]]` chain until a match is
found; returns a `Member` designating the owning object, or `None` for an
undeclared name. -/
def Heap.lookup_var (h : Heap) (name : String) : Option Interpreted :=
  (scopeWalkIn h.objects name (h.objects.length + 1) (h.local_scope.getD Heap.GLOBAL)).map
    (fun owner => .Member owner name)

/-- Modelled from the spec: `interpret_this` — the receiver stored in the
current activation's `[[this]]` system slot (`GLOBAL` at top level). -/
def Heap.interpret_this (h : Heap) : Nat :=
  match h.local_scope with
  | Option.none => Heap.GLOBAL
  | some s =>
      match (h.getObj s).getProp Heap.THIS with
      | some ⟨.ref r, _⟩ => r
      | _ => Heap.GLOBAL

/-- Modelled from the spec: `isinstance` — walk the object's `__proto__`
chain against the constructor's `prototype` property. -/
def Heap.isinstance (h : Heap) (objref ctor : Nat) : Except Exception Bool :=
  match (h.getObj ctor).get_own_value "prototype" with
  | some (.ref proto_ref) =>
      .ok (protoChainHas h.objects (h.objects.length + 1) ((h.getObj objref).proto) proto_ref)
  | _ => .error (.TypeErrorCannotGetProperty (.Value (.ref ctor)) "prototype")
where
  protoChainHas (objects : List JSObject) : Nat → Nat → Nat → Bool
    | 0, _, _ => false
    | n + 1, r, target =>
        if r = Heap.NULL then false
        else if r = target then true
        else protoChainHas objects n ((getObjIn objects r).proto) target

/-! ## `Interpreted` operations (modelled from spec §3 "Interpreted") -/

/-- Modelled from the spec: `Interpreted::to_value` — an rvalue is itself; a
`Member` dereferences through the prototype chain, yielding `undefined` for
a missing property (the lax global-read default of §4.1). -/
def Interpreted.to_value (i : Interpreted) (h : Heap) : Except Exception JSValue :=
  match i with
  | .Value v => .ok v
  | .Member of name => .ok ((h.lookupValueAt of name).getD .undefined)

/-- Modelled from the spec: `Interpreted::put_value` — write through a
`Member` lvalue with `set_property`; assigning to a plain rvalue is a
TypeError. -/
def Interpreted.put_value (i : Interpreted) (v : JSValue) (h : Heap) :
    Except Exception Heap :=
  match i with
  | .Member of name =>
      match (h.getObj of).set_property name v with
      | .ok o' => .ok (h.setObj of o')
      | .error e => .error e
  | .Value _ => .error (.TypeErrorCannotAssign i)

/-- `error::ignore_set_readonly`: turn the silent-failure write error into
success, pass every other exception through (modelled from the spec:
"writes to read-only properties are silently ignored"). -/
def ignore_set_readonly : Exception → Except Exception Unit
  | .TypeErrorSetReadonly _ => .ok ()
  | e => .error e

/-- `put_value(..).or_else(ignore_set_readonly)` as used by the evaluator. -/
def Interpreted.putValueIgnored (i : Interpreted) (v : JSValue) (h : Heap) :
    Outcome Unit :=
  match i.put_value v h with
  | .ok h' => .ok () h'
  | .error e =>
      match ignore_set_readonly e with
      | .ok () => .ok () h
      | .error e' => .err e' h

/-- Modelled from the spec: `Interpreted::delete` — delete through a
`Member`; "`delete` on non-`Member` lvalues returns `true`". -/
def Interpreted.deleteIt (i : Interpreted) (h : Heap) : Except Exception Heap :=
  match i with
  | .Member of name =>
      match (h.getObj of).deleteProp name with
      | .ok o' => .ok (h.setObj of o')
      | .error e => .error e
  | .Value _ => .ok h

/-- Modelled from the spec: `Interpreted::to_ref` — resolve to a value and
take its object reference. -/
def Interpreted.to_ref (i : Interpreted) (h : Heap) : Except Exception Nat :=
  match i.to_value h with
  | .ok v => v.to_ref
  | .error e => .error e

/-- Modelled from the spec: `type_of` — the `typeof` tag of a value
(callable objects report `"function"`). -/
def JSValue.type_of (v : JSValue) (h : Heap) : String :=
  match v with
  | .undefined => "undefined"
  | .null => "object"
  | .bool _ => "boolean"
  | .number _ => "number"
  | .string _ => "string"
  | .ref r =>
      match (h.getObj r).payload with
      | .closure _ => "function"
      | _ => "object"

/-- Modelled from the spec: `Interpreted::resolve_call` — resolve the callee
to `(function_ref, this_ref, diagnostic_name)`: a `Member { of, name }`
calls its looked-up value with `this_ref = of`; a plain function value is
called with an undefined receiver (`NULL` here). -/
def Interpreted.resolve_call (i : Interpreted) (h : Heap) :
    Except Exception (Nat × Nat × String) :=
  match i with
  | .Member of name =>
      match h.lookupValueAt of name with
      | some (.ref f) => .ok (f, of, name)
      | _ => .error (.TypeErrorNotCallable i)
  | .Value (.ref f) => .ok (f, Heap.NULL, "<anonymous>")
  | .Value _ => .error (.TypeErrorNotCallable i)

/-! ## Scope discipline and the call protocol (modelled from spec §4.1, §4.5) -/

/-- `CallContext`: arguments, receiver and diagnostic name of a call. -/
structure CallContext where
  arguments : List Interpreted
  this_ref : Nat
  name : String

/-- Modelled from the spec: `enter_new_scope` — scoped resource
acquisition: allocate a fresh scope object, set its `[[this]]` and
`[[saved_scope]]` system slots, make it current for the duration of `body`,
and restore the previous scope on every exit path. -/
def Heap.enter_new_scope {α : Type} (h : Heap) (thisRef parent : Nat)
    (body : Heap → Outcome α) : Outcome α :=
  let scopeObj := (JSObject.new.set_system Heap.SAVED_SCOPE (.ref parent)).set_system
    Heap.THIS (.ref thisRef)
  let (r, h₁) := h.alloc scopeObj
  let saved := h.local_scope
  match body { h₁ with local_scope := some r } with
  | .ok a h₂ => .ok a { h₂ with local_scope := saved }
  | .err e h₂ => .err e { h₂ with local_scope := saved }
  | .rtPanic m => .rtPanic m
  | .outOfFuel => .outOfFuel

/-- `FunctionExpression::interpret` minus the final wrap: build a closure
capturing the current lexical scope; allocate a function object with a
fresh `prototype` object (writable, non-enumerable, non-configurable) whose
`constructor` backlinks to the function (hidden). -/
def Heap.allocFunction (h : Heap) (func : Function) : Except Exception (Nat × Heap) :=
  let closure : Closure := ⟨func, h.local_scope.getD Heap.GLOBAL⟩
  let (function_ref, h₁) := h.alloc (JSObject.from_closure closure)
  let (prototype_ref, h₂) := h₁.alloc JSObject.new
  match (h₂.getObj function_ref).define_own_property "prototype" ⟨true, false, false⟩ with
  | .error e => .error e
  | .ok fo =>
      match fo.set_property "prototype" (.ref prototype_ref) with
      | .error e => .error e
      | .ok fo2 =>
          let h₃ := h₂.setObj function_ref fo2
          let po := (h₃.getObj prototype_ref).set_hidden "constructor" (.ref function_ref)
          .ok (function_ref, h₃.setObj prototype_ref po)

/-- Modelled from the spec: the `var` half of `declare` — hoist each
binding as `undefined` in the current scope, preserving a pre-existing
property. -/
def Heap.declareVars (h : Heap) : List String → Heap
  | [] => h
  | v :: rest =>
      let sref := h.local_scope.getD Heap.GLOBAL
      let so := h.getObj sref
      let h' :=
        match so.getProp v with
        | some _ => h
        | Option.none =>
            h.setObj sref
              { so with properties :=
                  so.properties ++ [(v, (⟨.undefined, Access.full⟩ : Property))] }
      h'.declareVars rest

/-- Modelled from the spec: the function half of `declare` — hoist each
declaration as an initialized closure (capturing the current scope),
overwriting a pre-existing binding. -/
def Heap.declareFuncs (h : Heap) : List FunctionDeclaration → Except Exception Heap
  | [] => .ok h
  | fd :: rest =>
      match h.allocFunction fd.function.func with
      | .error e => .error e
      | .ok (fref, h₁) =>
          let sref := h₁.local_scope.getD Heap.GLOBAL
          match (h₁.getObj sref).set_property fd.id (.ref fref) with
          | .error e => .error e
          | .ok so => (h₁.setObj sref so).declareFuncs rest

/-- Modelled from the spec: `declare(vars, funcs)` — hoist `var` bindings
as `undefined` and function declarations as initialized closures. -/
def Heap.declare (h : Heap) (vars : List String) (funcs : List FunctionDeclaration) :
    Except Exception Heap :=
  (h.declareVars vars).declareFuncs funcs

/-- A debug rendering of an exception, standing in for `format!("{:?}",
exc)` in the catch clause. -/
def Exception.describe : Exception → String
  | .UserThrown _ => "UserThrown"
  | .Jump _ => "Jump"
  | .TypeErrorSetReadonly n => "TypeError: read-only property " ++ n
  | .TypeErrorNotObject _ => "TypeError: not an object"
  | .TypeErrorCannotAssign _ => "TypeError: cannot assign"
  | .TypeErrorCannotGetProperty _ a => "TypeError: cannot get property " ++ a
  | .TypeErrorNotCallable _ => "TypeError: not callable"
  | .TypeErrorNotRef _ => "TypeError: not an object reference"
  | .TypeErrorCannotDelete n => "TypeError: cannot delete " ++ n
  | .TypeErrorNotArraylike _ => "TypeError: not array-like"
  | .ReferenceError n => "ReferenceError: " ++ n
  | .SyntaxTreeError m => "SyntaxTreeError: " ++ m
  | .NoLoopForContinueLabel l => "no loop for continue label " ++ l

/-- Modelled from the spec: `builtin::error::error_constructor` as used to
materialize a typed diagnostic error for a user catch handler — an error
object carrying the message. -/
def Heap.error_constructor (h : Heap) (message : String) : Nat × Heap :=
  h.alloc { properties := [("message", ⟨.string message, Access.full⟩)],
            proto := Heap.NULL, payload := .none }

/-- Modelled from the spec: bind formals positionally into the current
activation scope; missing arguments are `undefined`; excess arguments are
discarded. -/
def Heap.bindParams (h : Heap) : List String → List Interpreted → Except Exception Heap
  | [], _ => .ok h
  | p :: ps, [] =>
      let sref := h.local_scope.getD Heap.GLOBAL
      match (h.getObj sref).set_property p .undefined with
      | .error e => .error e
      | .ok so => (h.setObj sref so).bindParams ps []
  | p :: ps, a :: rest =>
      match a.to_value h with
      | .error e => .error e
      | .ok v =>
          let sref := h.local_scope.getD Heap.GLOBAL
          match (h.getObj sref).set_property p v with
          | .error e => .error e
          | .ok so => (h.setObj sref so).bindParams ps rest

/-! ## The evaluator

One fuel level (`Interp`) is a bundle of evaluation functions; `stepInterp`
builds level `n+1` from level `n`, so that `interpFuel` is structurally
recursive and every definition computes by kernel reduction.  Each helper
below is one evaluation rule of `interpret.rs`, written against the
previous level `I`. -/

/-- The bundle of mutually recursive evaluation functions at one fuel
level: `Statement::interpret`, `Expression::interpret`,
`ForStatement::do_loop`, the for-in prototype-chain loop, and the labeled
`continue_loop`. -/
structure Interp where
  stmt : Statement → Heap → Outcome Interpreted
  expr : Expression → Heap → Outcome Interpreted
  forLoop : ForStatement → Heap → Outcome Unit
  forInChain : Expression → Statement → Nat → List String → Heap → Outcome Interpreted
  labelLoop : String → Statement → Heap → Outcome Interpreted

/-- `Interpretable::evaluate`: interpret, then resolve to a `JSValue`. -/
def evaluate (I : Interp) (e : Expression) (h : Heap) : Outcome JSValue :=
  (I.expr e h).then fun i h => liftExc (i.to_value h) h

/-- The statement loop of `BlockStatement::interpret`: run the statements
in order, keeping the last result. -/
def runStmts (I : Interp) : List Statement → Interpreted → Heap → Outcome Interpreted
  | [], result, h => .ok result h
  | s :: rest, _, h => (I.stmt s h).then fun r h => runStmts I rest r h

/-- `BlockStatement::interpret`: enter a fresh scope over the current one,
hoist the block bindings, run the statements; the last statement's value is
the block's value. -/
def blockInterpret (I : Interp) (b : BlockStatement) (h : Heap) : Outcome Interpreted :=
  let this_ref := h.interpret_this
  let outer_scope := h.local_scope.getD Heap.GLOBAL
  h.enter_new_scope this_ref outer_scope fun h =>
    match h.declare b.bindings [] with
    | .error e => .err e h
    | .ok h => runStmts I b.body Interpreted.VOID h

/-- The body of `CatchClause::interpret` once the error value is known:
bind the parameter (non-configurable) in the fresh scope and run the
handler block. -/
def catchRun (I : Interp) (c : CatchClause) (error_value : JSValue) (h : Heap) :
    Outcome Interpreted :=
  let sref := h.local_scope.getD Heap.GLOBAL
  let so := (h.getObj sref).set_nonconf c.param error_value
  blockInterpret I c.body (h.setObj sref so)

/-- `CatchClause::interpret`: in a fresh scope, bind the parameter to the
thrown value (`UserThrown`), or to a freshly constructed `Error` object for
a typed diagnostic error; a `Jump` here is impossible and panics. -/
def catchInterpret (I : Interp) (c : CatchClause) (exc : Exception) (h : Heap) :
    Outcome Interpreted :=
  let this_ref := h.interpret_this
  let scope_ref := h.local_scope.getD Heap.GLOBAL
  h.enter_new_scope this_ref scope_ref fun h =>
    match exc with
    | .UserThrown errval => catchRun I c errval h
    | .Jump _ => .rtPanic "Impossible to catch"
    | e =>
        let (eref, h) := h.error_constructor e.describe
        catchRun I c (.ref eref) h

/-- `TryStatement::run_finalizer`: interpret the finalizer block, if
present. -/
def run_finalizer (I : Interp) (fin : Option BlockStatement) (h : Heap) : Outcome Unit :=
  match fin with
  | Option.none => .ok () h
  | some f => (blockInterpret I f h).then fun _ h => .ok () h

/-- `TryStatement::interpret`: on a normal result or a `Jump`, run the
finalizer (whose own exception supersedes via `?`) and keep the result; on
any other exception, run the handler if present, then the finalizer, and
keep the handler's result unless the finalizer raised. -/
def tryInterpret (I : Interp) (t : TryStatement) (h : Heap) : Outcome Interpreted :=
  match blockInterpret I t.block h with
  | .ok i h' => (run_finalizer I t.finalizer h').then fun _ h => .ok i h
  | .err (.Jump j) h' => (run_finalizer I t.finalizer h').then fun _ h => .err (.Jump j) h
  | .err exc h' =>
      let result :=
        match t.handler with
        | Option.none => Outcome.err exc h'
        | some cc => catchInterpret I cc exc h'
      match result with
      | .ok i h₂ => (run_finalizer I t.finalizer h₂).then fun _ h => .ok i h
      | .err e₂ h₂ => (run_finalizer I t.finalizer h₂).then fun _ h => .err e₂ h
      | .rtPanic m => .rtPanic m
      | .outOfFuel => .outOfFuel
  | .rtPanic m => .rtPanic m
  | .outOfFuel => .outOfFuel

/-- `ForStatement::should_iterate`. -/
def should_iterate (I : Interp) (fs : ForStatement) (h : Heap) : Outcome Bool :=
  match fs.test with
  | Option.none => .ok true h
  | some t => (evaluate I t h).then fun v h => .ok v.boolify h

/-- `ForStatement::do_update`. -/
def do_update (I : Interp) (fs : ForStatement) (h : Heap) : Outcome Unit :=
  match fs.update with
  | Option.none => .ok () h
  | some u => (I.expr u h).then fun _ h => .ok () h

/-- `ForStatement::do_loop`: while the test holds, run the body (an
unlabeled `Continue` proceeds to the update, an unlabeled `Break` exits),
then the update. -/
def forLoopStep (I : Interp) (fs : ForStatement) (h : Heap) : Outcome Unit :=
  (should_iterate I fs h).then fun b h =>
  if b then
    match I.stmt fs.body h with
    | .ok _ h => (do_update I fs h).then fun _ h => I.forLoop fs h
    | .err (.Jump (.Continue Option.none)) h =>
        (do_update I fs h).then fun _ h => I.forLoop fs h
    | .err (.Jump (.Break Option.none)) h => .ok () h
    | .err e h => .err e h
    | .rtPanic m => .rtPanic m
    | .outOfFuel => .outOfFuel
  else .ok () h

/-- One insertion into the key set of `ForInStatement::interpret`.  The
code accumulates keys in a `std` `HashSet` and iterates `keys.drain()`,
whose order is unspecified (`ast.rs` itself notes that a `HashSet`
"cannot be" used where order is "need"ed); an executable model must fix
some drain order, and this one keeps first-insertion order.  Only the
membership of the resulting set is faithful to the program; no theorem of
this file relies on the model's order being the program's order, and the
spec's insertion-order enumeration claim is settled as a code bug (C1). -/
def setInsert (l : List String) (k : String) : List String :=
  if k ∈ l then l else l ++ [k]

/-- The key collection of `ForInStatement::interpret`: the own property
keys of the object, then `0..storage.len()` for an array payload,
deduplicated as a set.  The list order is one fixed drain order of the
code's unordered `HashSet` (see `setInsert`); only its membership is
faithful. -/
def collectKeys (o : JSObject) : List String :=
  let keys := (o.properties.map Prod.fst).foldl setInsert []
  match o.payload with
  | .array st => ((List.range st.length).map (fun i => toString i)).foldl setInsert keys
  | _ => keys

/-- The per-key loop of `ForInStatement::interpret` over one chain object:
skip keys already visited; record the key as visited; re-check the key
against the current object (enumerable own property, or an
integer-parsable key of an array payload) and skip silently otherwise;
assign the key to the loop target and run the body, honoring unlabeled
`Continue`/`Break`.  Returns `false` when a `Break` ended the whole
statement, `true` (with the visited set) to continue with the prototype. -/
def forInKeysRun (I : Interp) (assign : Expression) (body : Statement) (objref : Nat) :
    List String → List String → Heap → Outcome (Bool × List String)
  | [], visited, h => .ok (true, visited) h
  | k :: keys, visited, h =>
      if k ∈ visited then forInKeysRun I assign body objref keys visited h
      else
        let visited := setInsert visited k
        let o := h.getObj objref
        let skip : Bool :=
          match o.getProp k with
          | some p => ! p.access.enumerable
          | Option.none => ! (o.isArray && (parseIndex k).isSome)
        if skip then forInKeysRun I assign body objref keys visited h
        else
          let propname : JSValue :=
            match parseIndex k with
            | some n => .number (.int n)
            | Option.none => .string k
          (I.expr assign h).then fun assignee h =>
          (assignee.putValueIgnored propname h).then fun _ h =>
          match I.stmt body h with
          | .ok _ h => forInKeysRun I assign body objref keys visited h
          | .err (.Jump (.Continue Option.none)) h =>
              forInKeysRun I assign body objref keys visited h
          | .err (.Jump (.Break Option.none)) h => .ok (false, visited) h
          | .err e h => .err e h
          | .rtPanic m => .rtPanic m
          | .outOfFuel => .outOfFuel

/-- The prototype-chain loop of `ForInStatement::interpret`: while the
object reference is not `NULL`, collect its keys, run the per-key loop,
and move to the prototype (read from the current heap). -/
def forInChainStep (I : Interp) (assign : Expression) (body : Statement) (objref : Nat)
    (visited : List String) (h : Heap) : Outcome Interpreted :=
  if objref = Heap.NULL then .ok Interpreted.VOID h
  else
    let keys := collectKeys (h.getObj objref)
    match forInKeysRun I assign body objref keys visited h with
    | .ok (true, visited') h => I.forInChain assign body ((h.getObj objref).proto) visited' h
    | .ok (false, _) h => .ok Interpreted.VOID h
    | .err e h => .err e h
    | .rtPanic m => .rtPanic m
    | .outOfFuel => .outOfFuel

/-- `ForInStatement::interpret`: evaluate the iteratee, coerce it to an
object, build the assignment target (the single declarator's identifier
for a `var` target), and start the chain walk with an empty visited set. -/
def forInInterpret (I : Interp) (fi : ForInStatement) (h : Heap) : Outcome Interpreted :=
  (evaluate I fi.right h).then fun v h =>
  let iteratee := v.objectify
  match fi.left with
  | .Expr e => I.forInChain e fi.body iteratee [] h
  | .Var vd =>
      match vd.declarations with
      | [] => .rtPanic "index out of bounds: the len is 0"
      | d :: _ =>
          let idexpr : Expression := .mk (.Identifier d.name) Option.none
          I.forInChain idexpr fi.body iteratee [] h

/-- The search phase of `SwitchStatement::interpret`: scan the cases in
order, recording the (last) default index, evaluating each test and
stopping at the first strict-equality match. -/
def switchSearchRun (I : Interp) (switchval : JSValue) :
    List SwitchCase → Nat → Option Nat → Heap → Outcome (Option Nat × Option Nat)
  | [], _, dflt, h => .ok (Option.none, dflt) h
  | c :: rest, i, dflt, h =>
      match c.test with
      | Option.none => switchSearchRun I switchval rest (i + 1) (some i) h
      | some t =>
          (evaluate I t h).then fun caseval h =>
          if JSValue.strict_eq switchval caseval
          then .ok (some i, dflt) h
          else switchSearchRun I switchval rest (i + 1) dflt h

/-- One case's consequent statements in the execution phase: an unlabeled
`Break` reports `true` (terminate the switch). -/
def switchConsequentRun (I : Interp) : List Statement → Heap → Outcome Bool
  | [], h => .ok false h
  | s :: rest, h =>
      match I.stmt s h with
      | .ok _ h => switchConsequentRun I rest h
      | .err (.Jump (.Break Option.none)) h => .ok true h
      | .err e h => .err e h
      | .rtPanic m => .rtPanic m
      | .outOfFuel => .outOfFuel

/-- The execution phase of `SwitchStatement::interpret`: fall through the
cases from the restart index until the end or an unlabeled `Break`. -/
def switchCasesRun (I : Interp) : List SwitchCase → Heap → Outcome Interpreted
  | [], h => .ok Interpreted.VOID h
  | c :: rest, h =>
      (switchConsequentRun I c.consequent h).then fun brk h =>
      if brk then .ok Interpreted.VOID h else switchCasesRun I rest h

/-- `SwitchStatement::interpret`: evaluate the discriminant once, search
for the restart index (first match, else the recorded default, else the
end), then execute from the restart index. -/
def switchInterpret (I : Interp) (sw : SwitchStatement) (h : Heap) : Outcome Interpreted :=
  (evaluate I sw.discriminant h).then fun switchval h =>
  (switchSearchRun I switchval sw.cases 0 Option.none h).then fun found h =>
  let restart := (found.1.or found.2).getD sw.cases.length
  switchCasesRun I (sw.cases.drop restart) h

/-- `LabelStatement::continue_loop`: only a for-statement can be continued
(`for-in` is `todo!()` in the source); run the update and then the loop,
consuming further labeled `Continue`/`Break` targeting this label. -/
def labelLoopStep (I : Interp) (label : String) (body : Statement) (h : Heap) :
    Outcome Interpreted :=
  match body.stmt with
  | .For fs =>
      (do_update I fs h).then fun _ h =>
      match I.forLoop fs h with
      | .ok _ h => .ok Interpreted.VOID h
      | .err (.Jump (.Continue (some target))) h =>
          if target = label then I.labelLoop label body h
          else .err (.Jump (.Continue (some target))) h
      | .err (.Jump (.Break (some target))) h =>
          if target = label then .ok Interpreted.VOID h
          else .err (.Jump (.Break (some target))) h
      | .err e h => .err e h
      | .rtPanic m => .rtPanic m
      | .outOfFuel => .outOfFuel
  | .ForIn _ => .rtPanic "not yet implemented"
  | _ => .err (.NoLoopForContinueLabel label) h

/-- `LabelStatement::interpret`: catch a `break label` as completion and a
`continue label` as a restart of the enclosed loop. -/
def labelInterpret (I : Interp) (label : String) (body : Statement) (h : Heap) :
    Outcome Interpreted :=
  match I.stmt body h with
  | .err (.Jump (.Break (some target))) h' =>
      if target = label then .ok Interpreted.VOID h'
      else .err (.Jump (.Break (some target))) h'
  | .err (.Jump (.Continue (some target))) h' =>
      if target = label then I.labelLoop label body h'
      else .err (.Jump (.Continue (some target))) h'
  | other => other

/-- `VariableDeclaration::interpret`: for each declarator with an
initializer, evaluate it and assign to the binding found by `lookup_var`
(ignoring a read-only failure); panic if the name was never declared. -/
def variableDeclsRun (I : Interp) : List VariableDeclarator → Heap → Outcome Interpreted
  | [], h => .ok Interpreted.VOID h
  | d :: rest, h =>
      match d.init with
      | Option.none => variableDeclsRun I rest h
      | some initexpr =>
          (evaluate I initexpr h).then fun value h =>
          match h.lookup_var d.name with
          | some (.Member of name) =>
              (match (h.getObj of).set_property name value with
               | .ok o' => Outcome.ok () (h.setObj of o')
               | .error e =>
                   match ignore_set_readonly e with
                   | .ok () => Outcome.ok () h
                   | .error e' => Outcome.err e' h)
              |>.then fun _ h => variableDeclsRun I rest h
          | _ => .rtPanic ("variable not declared: " ++ d.name)

/-- The argument loop of call/new expressions: interpret the arguments
left-to-right. -/
def interpArgs (I : Interp) : List Expression → Heap → Outcome (List Interpreted)
  | [], h => .ok [] h
  | e :: rest, h =>
      (I.expr e h).then fun i h =>
      (interpArgs I rest h).then fun is h =>
      .ok (i :: is) h

/-- The element loop of `ArrayExpression::interpret`: evaluate the
elements left-to-right to values. -/
def evalElems (I : Interp) : List Expression → Heap → Outcome (List JSValue)
  | [], h => .ok [] h
  | e :: rest, h =>
      (I.expr e h).then fun i h =>
      (liftExc (i.to_value h) h).then fun v h =>
      (evalElems I rest h).then fun vs h =>
      .ok (v :: vs) h

/-- The pair loop of `ObjectExpression::interpret`: computed keys are
coerced to strings; values are evaluated in source order and stored with
`set_property`. -/
def objectPairsRun (I : Interp) : List ObjectProperty → JSObject → Heap → Outcome JSObject
  | [], o, h => .ok o h
  | .mk key valexpr :: rest, o, h =>
      (match key with
       | .Identifier s => Outcome.ok s h
       | .Computed e =>
           (I.expr e h).then fun i h =>
           (liftExc (i.to_value h) h).then fun v h =>
           .ok v.stringify h)
      |>.then fun keyname h =>
      (I.expr valexpr h).then fun vi h =>
      (liftExc (vi.to_value h) h).then fun v h =>
      match o.set_property keyname v with
      | .ok o' => objectPairsRun I rest o' h
      | .error e => .err e h

/-- `SequenceExpression::interpret`: evaluate left-to-right; the result is
the last value. -/
def sequenceRun (I : Interp) : List Expression → JSValue → Heap → Outcome JSValue
  | [], v, h => .ok v h
  | e :: rest, _, h =>
      (I.expr e h).then fun i h =>
      (liftExc (i.to_value h) h).then fun v h =>
      sequenceRun I rest v h

/-- `BinOp::compute`: the binary operator table.  The bitwise closures
mirror the Rust sources bit for bit, including the saturating `as i32` /
`as u32` casts and the release-mode masking of an overflowing shift amount;
in `GtGtGt` the Rust expression `(a as u32) >> (b as u32) & 0x1f` parses as
`((a as u32) >> (b as u32)) & 0x1f` (shift binds tighter than `&`), so the
mask is applied to the shift *result*. -/
def BinOp.compute (op : BinOp) (lval rval : JSValue) (h : Heap) : Except Exception JSValue :=
  match op with
  | .EqEq => .ok (.bool (JSValue.loose_eq lval rval))
  | .NotEq => .ok (.bool (! JSValue.loose_eq lval rval))
  | .EqEqEq => .ok (.bool (JSValue.strict_eq lval rval))
  | .NotEqEq => .ok (.bool (! JSValue.strict_eq lval rval))
  | .Less => .ok (JSValue.compare lval rval (JSNumber.cmpWith (· < ·)) (· < ·))
  | .Greater => .ok (JSValue.compare lval rval (JSNumber.cmpWith (· > ·)) (· > ·))
  | .LtEq => .ok (JSValue.compare lval rval (JSNumber.cmpWith (· ≤ ·)) (· ≤ ·))
  | .GtEq => .ok (JSValue.compare lval rval (JSNumber.cmpWith (· ≥ ·)) (· ≥ ·))
  | .Plus => JSValue.plus lval rval
  | .Minus => JSValue.minus lval rval
  | .Star => .ok (JSValue.numerically lval rval JSNumber.mul)
  | .Slash => .ok (JSValue.numerically lval rval JSNumber.div)
  | .Percent => .ok (JSValue.numerically lval rval JSNumber.rem)
  | .Pipe =>
      let bitor : JSNumber → JSNumber → JSNumber := fun a b =>
        .int (i32OfBits (i32Bits a.rust_as_i32 ||| i32Bits b.rust_as_i32))
      .ok (JSValue.numerically lval rval bitor)
  | .Hat =>
      let bitxor : JSNumber → JSNumber → JSNumber := fun a b =>
        .int (i32OfBits (i32Bits a.rust_as_i32 ^^^ i32Bits b.rust_as_i32))
      .ok (JSValue.numerically lval rval bitxor)
  | .Ampersand =>
      let bitand : JSNumber → JSNumber → JSNumber := fun a b =>
        .int (i32OfBits (i32Bits a.rust_as_i32 &&& i32Bits b.rust_as_i32))
      .ok (JSValue.numerically lval rval bitand)
  | .LtLt =>
      let bitshl : JSNumber → JSNumber → JSNumber := fun a b =>
        .int (i32OfBits ((i32Bits a.rust_as_i32 <<< (b.rust_as_u32 &&& 0x1f)) % 4294967296))
      .ok (JSValue.numerically lval rval bitshl)
  | .GtGt =>
      let bitshr : JSNumber → JSNumber → JSNumber := fun a b =>
        .int (Int.fdiv a.rust_as_i32 (2 ^ (b.rust_as_u32 &&& 0x1f)))
      .ok (JSValue.numerically lval rval bitshr)
  | .GtGtGt =>
      let bitshru : JSNumber → JSNumber → JSNumber := fun a b =>
        .int (((a.rust_as_u32 >>> (b.rust_as_u32 % 32)) &&& 0x1f : Nat) : Int)
      .ok (JSValue.numerically lval rval bitshru)
  | .In =>
      let prop := lval.stringify
      match rval.to_ref with
      | .error e => .error e
      | .ok objref => .ok (.bool (h.lookupValueAt objref prop).isSome)
  | .InstanceOf =>
      match rval.to_ref with
      | .error e => .error e
      | .ok ctor =>
          match lval.to_ref with
          | .error _ => .ok (.bool false)
          | .ok objref =>
              match h.isinstance objref ctor with
              | .ok found => .ok (.bool found)
              | .error e => .error e

/-- `MemberExpression::interpret`: compute the property name first (a
computed key is evaluated and stringified; otherwise the property must
syntactically be an identifier, or the evaluator panics), then the object
(a TypeError if it resolves to `undefined`); `__proto__` reads the
prototype slot directly; otherwise a `Member` lvalue results. -/
def memberInterpret (I : Interp) (objexpr propexpr : Expression) (computed : Bool)
    (h : Heap) : Outcome Interpreted :=
  (if computed then
    (I.expr propexpr h).then fun pi h =>
    (liftExc (pi.to_value h) h).then fun pv h =>
    .ok pv.stringify h
   else
    match propexpr.expr with
    | .Identifier n => Outcome.ok n h
    | _ => .rtPanic "Member(computed=false) property is not an identifier")
  |>.then fun propname h =>
  (I.expr objexpr h).then fun objresult h =>
  (liftExc (objresult.to_value h) h).then fun v h =>
  match v with
  | .undefined => .err (.TypeErrorNotObject objresult) h
  | value =>
      let objref := value.objectify
      if propname = "__proto__"
      then .ok (.Value (.ref ((h.getObj objref).proto))) h
      else .ok (.Member objref propname) h

/-- `UnaryExpression::interpret`. -/
def unaryInterpret (I : Interp) (op : UnOp) (argexpr : Expression) (h : Heap) :
    Outcome Interpreted :=
  (I.expr argexpr h).then fun arg h =>
  let argvalue : Except Exception JSValue := arg.to_value h
  let argnum : Except Exception JSNumber := argvalue.map (·.numberify)
  match op with
  | .Exclamation =>
      (liftExc argvalue h).then fun v h => .ok (.Value (.bool (! v.boolify))) h
  | .Minus =>
      (liftExc argnum h).then fun n h =>
      .ok (.Value (.number (JSNumber.sub (.int 0) n))) h
  | .Plus =>
      (liftExc argnum h).then fun n h => .ok (.Value (.number n)) h
  | .Tilde =>
      (liftExc argnum h).then fun n h =>
      let value : JSNumber :=
        match n with
        | .nan => .int (-1)
        | .int i => .int (-(1 + i))
      .ok (.Value (.number value)) h
  | .Void => .ok (.Value .undefined) h
  | .Typeof =>
      let s :=
        match argvalue with
        | .ok v => v.type_of h
        | .error _ => "undefined"
      .ok (.Value (.string s)) h
  | .Delete =>
      match arg.deleteIt h with
      | .ok h' => .ok (.Value (.bool true)) h'
      | .error _ => .ok (.Value (.bool false)) h

/-- `UpdateExpression::interpret`: read through the lvalue, add or subtract
one, write back (ignoring read-only failures), and return the old or new
number per the prefix flag. -/
def updateInterpret (I : Interp) (op : UpdOp) (pre : Bool) (argexpr : Expression)
    (h : Heap) : Outcome Interpreted :=
  (I.expr argexpr h).then fun assignee h =>
  (liftExc (assignee.to_value h) h).then fun oldvalue h =>
  let oldnum := oldvalue.numberify
  let newnum :=
    match op with
    | .Increment => JSNumber.add oldnum (.int 1)
    | .Decrement => JSNumber.sub oldnum (.int 1)
  (assignee.putValueIgnored (.number newnum) h).then fun _ h =>
  .ok (.Value (.number (if pre then newnum else oldnum))) h

/-- `AssignmentExpression::interpret`: evaluate the right-hand side first,
then the left-hand side as an lvalue; with a compound operator, combine
with the old value; write back, silently ignoring a read-only property;
the expression's value is the computed new value. -/
def assignInterpret (I : Interp) (leftexpr : Expression) (modop : Option BinOp)
    (valexpr : Expression) (h : Heap) : Outcome Interpreted :=
  (evaluate I valexpr h).then fun value h =>
  (I.expr leftexpr h).then fun assignee h =>
  (match modop with
   | Option.none => Outcome.ok value h
   | some op =>
       (liftExc (assignee.to_value h) h).then fun oldvalue h =>
       liftExc (op.compute oldvalue value h) h)
  |>.then fun newvalue h =>
  (assignee.putValueIgnored newvalue h).then fun _ h =>
  .ok (.Value newvalue) h

/-- `Heap::execute` for a closure payload: fresh activation scope over the
captured scope with the receiver in `[[this]]`, positional parameter
binding, hoisting, body interpretation; a `Return` jump is the function's
value, a `Break`/`Continue` escaping the function is a runtime error;
normal completion yields `VOID`.  A non-callable payload is a TypeError. -/
def executeRun (I : Interp) (funcref : Nat) (ctx : CallContext) (h : Heap) :
    Outcome Interpreted :=
  match (h.getObj funcref).payload with
  | .closure c =>
      let r := h.enter_new_scope ctx.this_ref c.captured_scope fun h =>
        match h.bindParams c.function.params ctx.arguments with
        | .error e => .err e h
        | .ok h =>
            match h.declare c.function.vars c.function.functions with
            | .error e => .err e h
            | .ok h => blockInterpret I c.function.body h
      match r with
      | .ok _ h => .ok Interpreted.VOID h
      | .err (.Jump (.Return v)) h => .ok v h
      | .err (.Jump _) h => .err (.SyntaxTreeError "Jump escapes the function") h
      | other => other
  | _ => .err (.TypeErrorNotCallable (.Value (.ref funcref))) h

/-- `CallExpression::interpret`: arguments left-to-right, then the callee;
resolve `(function_ref, this_ref, name)` and dispatch. -/
def callInterpret (I : Interp) (callee_expr : Expression)
    (argument_exprs : List Expression) (h : Heap) : Outcome Interpreted :=
  (interpArgs I argument_exprs h).then fun arguments h =>
  (I.expr callee_expr h).then fun callee h =>
  (liftExc (callee.resolve_call h) h).then fun fct h =>
  executeRun I fct.1 ⟨arguments, fct.2.1, fct.2.2⟩ h

/-- `NewExpression::interpret`: arguments, then the callee resolved to an
object reference; its own `prototype` property is read (a TypeError if
absent) and dereferenced; a fresh object with that prototype is allocated
and the callee invoked with `this` bound to it; the expression's result is
the call's result if that is a non-null object reference, otherwise the
fresh object. -/
def newInterpret (I : Interp) (callee_expr : Expression)
    (argument_exprs : List Expression) (h : Heap) : Outcome Interpreted :=
  (interpArgs I argument_exprs h).then fun arguments h =>
  (I.expr callee_expr h).then fun callee h =>
  (liftExc (callee.to_ref h) h).then fun funcref h =>
  (match (h.getObj funcref).get_own_value "prototype" with
   | some v => liftExc v.to_ref h
   | Option.none => .err (.TypeErrorCannotGetProperty callee "prototype") h)
  |>.then fun prototype_ref h =>
  let (object_ref, h) := h.alloc { JSObject.new with proto := prototype_ref }
  (executeRun I funcref ⟨arguments, object_ref, "<constructor>"⟩ h).then fun result h =>
  match result with
  | .Value (.ref r) =>
      if r ≠ Heap.NULL then .ok result h else .ok (.Value (.ref object_ref)) h
  | _ => .ok (.Value (.ref object_ref)) h

/-- `Expression::interpret`: record the node's location and dispatch. -/
def exprInterpret (I : Interp) (e : Expression) (h0 : Heap) : Outcome Interpreted :=
  let h := { h0 with loc := e.loc }
  match e.expr with
  | .Literal l => .ok (.Value l.to_value) h
  | .Identifier name => .ok ((h.lookup_var name).getD (.Member Heap.GLOBAL name)) h
  | .BinaryOp (.mk lexpr op rexpr) =>
      (evaluate I lexpr h).then fun lval h =>
      (evaluate I rexpr h).then fun rval h =>
      (liftExc (op.compute lval rval h) h).then fun result h =>
      .ok (.Value result) h
  | .LogicalOp (.mk lexpr op rexpr) =>
      (evaluate I lexpr h).then fun lval h =>
      (match lval.boolify, op with
       | true, .And | false, .Or => evaluate I rexpr h
       | _, _ => Outcome.ok lval h)
      |>.then fun value h => .ok (.Value value) h
  | .Call (.mk callee args) => callInterpret I callee args h
  | .Array (.mk exprs) =>
      (evalElems I exprs h).then fun storage h =>
      let (object_ref, h) := h.alloc (JSObject.from_array storage)
      .ok (.Value (.ref object_ref)) h
  | .Member (.mk objexpr propexpr computed) => memberInterpret I objexpr propexpr computed h
  | .Object (.mk props) =>
      (objectPairsRun I props JSObject.new h).then fun object h =>
      let (object_ref, h) := h.alloc object
      .ok (.Value (.ref object_ref)) h
  | .Assign (.mk leftexpr (.mk modop) valexpr) => assignInterpret I leftexpr modop valexpr h
  | .Conditional (.mk condexpr thenexpr elseexpr) =>
      (evaluate I condexpr h).then fun cond h =>
      if cond.boolify then I.expr thenexpr h else I.expr elseexpr h
  | .Unary (.mk op argexpr) => unaryInterpret I op argexpr h
  | .Update (.mk op pre argexpr) => updateInterpret I op pre argexpr h
  | .Sequence (.mk exprs) =>
      (sequenceRun I exprs .undefined h).then fun value h => .ok (.Value value) h
  | .Function fe =>
      match h.allocFunction fe.func with
      | .ok (function_ref, h) => .ok (.Value (.ref function_ref)) h
      | .error e => .err e h
  | .This => .ok (.Value (.ref h.interpret_this)) h
  | .New (.mk callee args) => newInterpret I callee args h

/-- `Statement::interpret`: record the node's location and dispatch. -/
def stmtInterpret (I : Interp) (s : Statement) (h0 : Heap) : Outcome Interpreted :=
  let h := { h0 with loc := s.loc }
  match s.stmt with
  | .Empty => .ok Interpreted.VOID h
  | .Expr (.mk e) => (evaluate I e h).then fun v h => .ok (.Value v) h
  | .Block b => blockInterpret I b h
  | .If (.mk test cons alt) =>
      (evaluate I test h).then fun cond h =>
      if cond.boolify then I.stmt cons h
      else
        match alt with
        | some else_stmt => I.stmt else_stmt h
        | Option.none => .ok Interpreted.VOID h
  | .Switch sw => switchInterpret I sw h
  | .For fs =>
      (I.stmt fs.init h).then fun _ h =>
      (I.forLoop fs h).then fun _ h =>
      .ok Interpreted.VOID h
  | .ForIn fi => forInInterpret I fi h
  | .Break (.mk l) => .err (.Jump (.Break l)) h
  | .Continue (.mk l) => .err (.Jump (.Continue l)) h
  | .Label (.mk label body) => labelInterpret I label body h
  | .Return (.mk arg) =>
      (match arg with
       | Option.none => Outcome.ok Interpreted.VOID h
       | some e => I.expr e h)
      |>.then fun returned h => .err (.Jump (.Return returned)) h
  | .Throw (.mk e) => (evaluate I e h).then fun v h => .err (.UserThrown v) h
  | .Try t => tryInterpret I t h
  | .Variable vd => variableDeclsRun I vd.declarations h
  | .Function _ => .ok Interpreted.VOID h

/-- One fuel level of the interpreter, built from the previous one. -/
def stepInterp (I : Interp) : Interp :=
  { stmt := stmtInterpret I
    expr := exprInterpret I
    forLoop := forLoopStep I
    forInChain := forInChainStep I
    labelLoop := labelLoopStep I }

/-- The empty interpreter: everything runs out of fuel. -/
def interpNone : Interp :=
  { stmt := fun _ _ => .outOfFuel
    expr := fun _ _ => .outOfFuel
    forLoop := fun _ _ => .outOfFuel
    forInChain := fun _ _ _ _ _ => .outOfFuel
    labelLoop := fun _ _ _ => .outOfFuel }

/-- The interpreter at a given fuel level. -/
def interpFuel : Nat → Interp
  | 0 => interpNone
  | n + 1 => stepInterp (interpFuel n)

/-- `Statement::interpret` at a fuel level. -/
def interpStmt (n : Nat) : Statement → Heap → Outcome Interpreted := (interpFuel n).stmt

/-- `Expression::interpret` at a fuel level. -/
def interpExpr (n : Nat) : Expression → Heap → Outcome Interpreted := (interpFuel n).expr

/-- `Program::interpret`: hoist the program-level declarations into the
current (global) scope, then interpret the body block. -/
def programInterpret (I : Interp) (p : Program) (h : Heap) : Outcome Interpreted :=
  match h.declare p.vars p.functions with
  | .error e => .err e h
  | .ok h => blockInterpret I p.body h

/-- `Heap::evaluate(program)` on a fresh heap: interpret and resolve to a
value. -/
def runProgram (fuel : Nat) (p : Program) : Outcome JSValue :=
  (programInterpret (interpFuel fuel) p Heap.new).then fun i h =>
  liftExc (i.to_value h) h

/-- An own property of the global object in the final heap of a run
(observability helper for the concrete scenarios). -/
def globalProp (o : Outcome JSValue) (name : String) : Option JSValue :=
  match o with
  | .ok _ h => (h.getObj Heap.GLOBAL).get_own_value name
  | .err _ h => (h.getObj Heap.GLOBAL).get_own_value name
  | _ => Option.none

/-! ## AST construction helpers (the `ast::builder` role) -/

def eLit (j : JSON) : Expression := .mk (.Literal (.mk j)) Option.none

def eNum (i : Int) : Expression := eLit (.number i)

def eStr (s : String) : Expression := eLit (.string s)

def eId (s : String) : Expression := .mk (.Identifier s) Option.none

def eBin (op : BinOp) (l r : Expression) : Expression :=
  .mk (.BinaryOp (.mk l op r)) Option.none

def eAssign (t v : Expression) : Expression :=
  .mk (.Assign (.mk t (.mk Option.none) v)) Option.none

def eAssignOp (op : BinOp) (t v : Expression) : Expression :=
  .mk (.Assign (.mk t (.mk (some op)) v)) Option.none

def eMember (o : Expression) (name : String) : Expression :=
  .mk (.Member (.mk o (eId name) false)) Option.none

def eIndex (o idx : Expression) : Expression :=
  .mk (.Member (.mk o idx true)) Option.none

def eCall (f : Expression) (args : List Expression) : Expression :=
  .mk (.Call (.mk f args)) Option.none

def eNew (f : Expression) (args : List Expression) : Expression :=
  .mk (.New (.mk f args)) Option.none

def eObj (pairs : List (String × Expression)) : Expression :=
  .mk (.Object (.mk (pairs.map fun p => .mk (.Identifier p.1) p.2))) Option.none

def eArr (elems : List Expression) : Expression :=
  .mk (.Array (.mk elems)) Option.none

def eDelete (target : Expression) : Expression :=
  .mk (.Unary (.mk .Delete target)) Option.none

def eTypeof (target : Expression) : Expression :=
  .mk (.Unary (.mk .Typeof target)) Option.none

def sExpr (e : Expression) : Statement := .mk (.Expr (.mk e)) Option.none

def sVar1 (name : String) (init : Expression) : Statement :=
  .mk (.Variable (.mk .Var [.mk name (some init)])) Option.none

def sThrow (e : Expression) : Statement := .mk (.Throw (.mk e)) Option.none

def sReturn (e : Expression) : Statement := .mk (.Return (.mk (some e))) Option.none

def sBreak : Statement := .mk (.Break (.mk Option.none)) Option.none

def sBlock (stmts : List Statement) : BlockStatement := .mk stmts []

def sTry (b : List Statement) (hnd : Option CatchClause) (fin : Option (List Statement)) :
    Statement :=
  .mk (.Try (.mk (sBlock b) hnd (fin.map sBlock))) Option.none

def sForIn (varname : String) (obj : Expression) (body : Statement) : Statement :=
  .mk (.ForIn (.mk (.Var (.mk .Var [.mk varname Option.none])) obj body)) Option.none

def sSwitch (disc : Expression) (cases : List SwitchCase) : Statement :=
  .mk (.Switch (.mk disc cases)) Option.none

def mkFunction (params vars : List String) (stmts : List Statement) : Function :=
  .mk Option.none params vars [] [] (sBlock stmts) false false false

def fdecl (name : String) (params vars : List String) (stmts : List Statement) :
    FunctionDeclaration :=
  .mk name (.mk (mkFunction params vars stmts))

def mkProgram (vars : List String) (funcs : List FunctionDeclaration)
    (stmts : List Statement) : Program :=
  ⟨sBlock stmts, vars, funcs⟩

/-! ## The try/catch/finally factoring (claims C3 and C4)

`finalizeOnce` and `tryCatchPart` are written from the specification's
wording ("the finalizer, if present, runs on every exit path (normal,
caught, uncaught, jump), and a finalizer's own exception supersedes the
original"; "`Jump` exceptions are not caught by `catch`").  The
factoring result shows the code's `TryStatement::interpret` equals the composition:
first the try/catch part — in which the handler is reached only by
non-`Jump` exceptions — then exactly one finalizer run, whose own exception
supersedes the pending outcome. -/

/-- Follows the spec wording: run the finalizer exactly once on the pending
outcome of the try/catch part; if the finalizer itself raises, its
exception supersedes the pending result or exception.  (A panic or
fuel-out pending outcome carries no heap to run the finalizer on.) -/
def finalizeOnce (I : Interp) (fin : Option BlockStatement) :
    Outcome Interpreted → Outcome Interpreted
  | .ok i h => (run_finalizer I fin h).then fun _ h' => .ok i h'
  | .err e h => (run_finalizer I fin h).then fun _ h' => .err e h'
  | .rtPanic m => .rtPanic m
  | .outOfFuel => .outOfFuel

/-- Follows the spec wording: the protected block with its catch handler
and no finalizer — normal completion and `Jump` exceptions pass through
untouched; every other exception goes to the handler when one exists. -/
def tryCatchPart (I : Interp) (t : TryStatement) (h : Heap) : Outcome Interpreted :=
  match blockInterpret I t.block h with
  | .ok i h' => .ok i h'
  | .err (.Jump j) h' => .err (.Jump j) h'
  | .err e h' =>
      match t.handler with
      | Option.none => .err e h'
      | some cc => catchInterpret I cc e h'
  | .rtPanic m => .rtPanic m
  | .outOfFuel => .outOfFuel

/-- `var n = 0; try { } finally { n = n + 1 }  n` — the normal path. -/
def progC3normal : Program := mkProgram ["n"] []
  [sVar1 "n" (eNum 0),
   sTry [] Option.none (some [sExpr (eAssignOp .Plus (eId "n") (eNum 1))]),
   sExpr (eId "n")]

/-- `var n = 0; try { throw "boom" } finally { n = n + 1 }` — the uncaught
path. -/
def progC3throw : Program := mkProgram ["n"] []
  [sVar1 "n" (eNum 0),
   sTry [sThrow (eStr "boom")] Option.none
     (some [sExpr (eAssignOp .Plus (eId "n") (eNum 1))])]

/-- `var n = 0; try { throw "e" } catch (x) { r = x + "!" } finally
{ n = n + 1 }  r` — the caught path (spec scenario 5). -/
def progC3caught : Program := mkProgram ["n", "r"] []
  [sVar1 "n" (eNum 0),
   sTry [sThrow (eStr "e")]
     (some (.mk "x" (sBlock [sExpr (eAssign (eId "r") (eBin .Plus (eId "x") (eStr "!")))])))
     (some [sExpr (eAssignOp .Plus (eId "n") (eNum 1))]),
   sExpr (eId "r")]

/-- `function f() { try { return 1 } finally { g = g + 1 } }
var g = 0; var r = f();  r * 10 + g` — the jump (return) path. -/
def progC3return : Program := mkProgram ["g", "r"]
  [fdecl "f" [] []
    [sTry [sReturn (eNum 1)] Option.none
      (some [sExpr (eAssignOp .Plus (eId "g") (eNum 1))])]]
  [sVar1 "g" (eNum 0),
   sVar1 "r" (eCall (eId "f") []),
   sExpr (eBin .Plus (eBin .Star (eId "r") (eNum 10)) (eId "g"))]

/-- `try { throw "a" } finally { throw "b" }` — the finalizer's exception
supersedes the pending one. -/
def progC3supersede : Program := mkProgram [] []
  [sTry [sThrow (eStr "a")] Option.none (some [sThrow (eStr "b")])]

/-- The try statement `try { break } catch (e) { }` of the C4 witness. -/
def c4try : TryStatement := .mk (sBlock [sBreak]) (some (.mk "e" (sBlock []))) Option.none

/-- The heap after the witness's protected block raised its `Break` jump:
the fresh block scope remains allocated, the previous scope is restored. -/
def c4heap1 : Heap :=
  { objects :=
      [default,
       { properties := [], proto := Heap.NULL, payload := .none },
       { properties :=
           [(Heap.SAVED_SCOPE, ⟨.ref Heap.GLOBAL, Access.system⟩),
            (Heap.THIS, ⟨.ref Heap.GLOBAL, Access.system⟩)],
         proto := Heap.NULL, payload := .none }],
    local_scope := Option.none,
    loc := Option.none }

/-- Follows the claim wording: evaluate the non-default tests in source
order with strict equality; the first match selects the case index. -/
def switchFirstMatch (I : Interp) (switchval : JSValue) :
    List SwitchCase → Nat → Heap → Outcome (Option Nat)
  | [], _, h => .ok Option.none h
  | c :: rest, i, h =>
      match c.test with
      | Option.none => switchFirstMatch I switchval rest (i + 1) h
      | some t =>
          (evaluate I t h).then fun caseval h =>
          if JSValue.strict_eq switchval caseval then .ok (some i) h
          else switchFirstMatch I switchval rest (i + 1) h

/-- Follows the claim wording: the index of the default case, if present. -/
def defaultIndex : List SwitchCase → Nat → Option Nat
  | [], _ => Option.none
  | c :: rest, i => if c.test.isNone then some i else defaultIndex rest (i + 1)

/-- Follows the claim wording: run a flat statement sequence with
fall-through; an unlabeled break terminates the switch, which completes
normally. -/
def switchSpecRunStmts (I : Interp) : List Statement → Heap → Outcome Interpreted
  | [], h => .ok Interpreted.VOID h
  | s :: rest, h =>
      match I.stmt s h with
      | .ok _ h => switchSpecRunStmts I rest h
      | .err (.Jump (.Break Option.none)) h => .ok Interpreted.VOID h
      | .err e h => .err e h
      | .rtPanic m => .rtPanic m
      | .outOfFuel => .outOfFuel

/-- Follows the claim wording for the whole switch statement: the
discriminant is evaluated once; the first matching case — or, when none
matches, the default case if present — selects the restart index; the
consequents of all cases from the restart index to the end run flattened;
if no case matches and there is no default, no consequent runs. -/
def switchSpec (I : Interp) (sw : SwitchStatement) (h : Heap) : Outcome Interpreted :=
  (evaluate I sw.discriminant h).then fun switchval h =>
  (switchFirstMatch I switchval sw.cases 0 h).then fun found h =>
  match found.or (defaultIndex sw.cases 0) with
  | Option.none => .ok Interpreted.VOID h
  | some restart =>
      switchSpecRunStmts I (((sw.cases.drop restart).map SwitchCase.consequent).flatten) h

/-- The default index the imperative scan has accumulated after走
scanning a whole case list. -/
def lastDefaultFrom (i : Nat) (dflt : Option Nat) : List SwitchCase → Option Nat
  | [] => dflt
  | c :: rest =>
      if c.test.isNone then lastDefaultFrom (i + 1) (some i) rest
      else lastDefaultFrom (i + 1) dflt rest

/-- `var s = ""; switch (2) { case 1: s = s + "a"; case 2: s = s + "b";
case 3: s = s + "c"; break; case 4: s = s + "d"; default: s = s + "e" } s`
— matches case 2, falls through case 3, breaks: `"bc"`. -/
def progC6 : Program := mkProgram ["s"] []
  [sVar1 "s" (eStr ""),
   sSwitch (eNum 2)
     [.mk (some (eNum 1)) [sExpr (eAssignOp .Plus (eId "s") (eStr "a"))],
      .mk (some (eNum 2)) [sExpr (eAssignOp .Plus (eId "s") (eStr "b"))],
      .mk (some (eNum 3)) [sExpr (eAssignOp .Plus (eId "s") (eStr "c")), sBreak],
      .mk (some (eNum 4)) [sExpr (eAssignOp .Plus (eId "s") (eStr "d"))],
      .mk Option.none [sExpr (eAssignOp .Plus (eId "s") (eStr "e"))]],
   sExpr (eId "s")]

/-- `var s = "z"; switch (5) { case 1: s = s + "a" } s` — no match, no
default: no consequent runs. -/
def progC6b : Program := mkProgram ["s"] []
  [sVar1 "s" (eStr "z"),
   sSwitch (eNum 5) [.mk (some (eNum 1)) [sExpr (eAssignOp .Plus (eId "s") (eStr "a"))]],
   sExpr (eId "s")]

/-- The switch statement of `progC6`, as a standalone witness input. -/
def swC6 : SwitchStatement :=
  .mk (eNum 2)
    [.mk (some (eNum 1)) [sExpr (eAssignOp .Plus (eId "s") (eStr "a"))],
     .mk (some (eNum 2)) [sExpr (eAssignOp .Plus (eId "s") (eStr "b"))],
     .mk (some (eNum 3)) [sExpr (eAssignOp .Plus (eId "s") (eStr "c")), sBreak],
     .mk (some (eNum 4)) [sExpr (eAssignOp .Plus (eId "s") (eStr "d"))],
     .mk Option.none [sExpr (eAssignOp .Plus (eId "s") (eStr "e"))]]

/-! ## Claim C5: new-expressions -/

/-- Follows the claim wording: is this result a non-null object
reference? -/
def isNonNullObjectRef : Interpreted → Bool
  | .Value (.ref r) => decide (r ≠ Heap.NULL)
  | _ => false

/-- Follows the claim wording: the result of the whole `new` expression is
the call's result if that result is a non-null object reference, otherwise
the freshly allocated object. -/
def chooseNewResult (result : Interpreted) (object_ref : Nat) : Interpreted :=
  if isNonNullObjectRef result then result else .Value (.ref object_ref)

/-- Follows the claim wording for `new C(args)`: the callee is resolved to
an object reference; its `prototype` property is read, a TypeError raised
if absent; a fresh object whose proto is that prototype reference is
allocated; the callee is invoked with `this` bound to the fresh object; and
the result is chosen by `chooseNewResult`. -/
def newSpec (I : Interp) (callee_expr : Expression) (argument_exprs : List Expression)
    (h : Heap) : Outcome Interpreted :=
  (interpArgs I argument_exprs h).then fun arguments h =>
  (I.expr callee_expr h).then fun callee h =>
  (liftExc (callee.to_ref h) h).then fun funcref h =>
  (match (h.getObj funcref).get_own_value "prototype" with
   | some v => liftExc v.to_ref h
   | Option.none => .err (.TypeErrorCannotGetProperty callee "prototype") h)
  |>.then fun prototype_ref h =>
  let (object_ref, h) := h.alloc { JSObject.new with proto := prototype_ref }
  (executeRun I funcref ⟨arguments, object_ref, "<constructor>"⟩ h).then fun result h =>
  .ok (chooseNewResult result object_ref) h

/-- `function C() { this.x = 1 } C.prototype.y = 2; var c = new C();
c.x + c.y` (spec scenario 6). -/
def progC5 : Program := mkProgram ["c"]
  [fdecl "C" [] [] [sExpr (eAssign (eMember (.mk .This Option.none) "x") (eNum 1))]]
  [sExpr (eAssign (eMember (eMember (eId "C") "prototype") "y") (eNum 2)),
   sVar1 "c" (eNew (eId "C") []),
   sExpr (eBin .Plus (eMember (eId "c") "x") (eMember (eId "c") "y"))]

/-- `var o = {}; var r = new o();` — `new` on an object with no
`prototype` property is a TypeError. -/
def progC5err : Program := mkProgram ["o", "r"] []
  [sVar1 "o" (eObj []),
   sVar1 "r" (eNew (eId "o") [])]

/-! ## Claim C7: assignment expressions -/

/-- Follows the claim wording: write the computed value back through the
lvalue; a write to a read-only property is silently ignored — no exception
— every other failure propagates. -/
def writeBackSpec (assignee : Interpreted) (v : JSValue) (h : Heap) : Outcome Unit :=
  match assignee.put_value v h with
  | .ok h' => .ok () h'
  | .error (.TypeErrorSetReadonly _) => .ok () h
  | .error e => .err e h

/-- Follows the claim wording for assignments: the right-hand side is
evaluated first, then the left-hand side as an lvalue; with a compound
operator the old value of the lvalue is read and combined with the RHS
value; the result is written back (read-only writes silently ignored);
the assignment expression evaluates to the computed new value. -/
def assignSpec (I : Interp) (leftexpr : Expression) (modop : Option BinOp)
    (valexpr : Expression) (h : Heap) : Outcome Interpreted :=
  (evaluate I valexpr h).then fun value h =>
  (I.expr leftexpr h).then fun assignee h =>
  (match modop with
   | Option.none => Outcome.ok value h
   | some op =>
       (liftExc (assignee.to_value h) h).then fun oldvalue h =>
       liftExc (op.compute oldvalue value h) h)
  |>.then fun newvalue h =>
  (writeBackSpec assignee newvalue h).then fun _ h =>
  .ok (.Value newvalue) h

/-- `function L() { s = s + "L"; return o } function R() { s = s + "R";
return 2 } var o = {p:1}; var s = ""; L().p = R();  s + o.p` — the RHS
call runs before the LHS lvalue, so `s` is `"RL"`. -/
def progC7ord : Program := mkProgram ["o", "s"]
  [fdecl "L" [] [] [sExpr (eAssignOp .Plus (eId "s") (eStr "L")), sReturn (eId "o")],
   fdecl "R" [] [] [sExpr (eAssignOp .Plus (eId "s") (eStr "R")), sReturn (eNum 2)]]
  [sVar1 "o" (eObj [("p", eNum 1)]),
   sVar1 "s" (eStr ""),
   sExpr (eAssign (eMember (eCall (eId "L") []) "p") (eCall (eId "R") [])),
   sExpr (eBin .Plus (eId "s") (eMember (eId "o") "p"))]

/-- `var x = 3; x += 4;  x`. -/
def progC7compound : Program := mkProgram ["x"] []
  [sVar1 "x" (eNum 3),
   sExpr (eAssignOp .Plus (eId "x") (eNum 4)),
   sExpr (eId "x")]

/-- A heap whose global binds `o` to an object with a read-only own
property `x = 1`. -/
def heapC7 : Heap :=
  { objects :=
      [default,
       { properties := [("o", ⟨.ref 2, Access.full⟩)], proto := Heap.NULL, payload := .none },
       { properties := [("x", ⟨.number (.int 1), ⟨false, true, true⟩⟩)],
         proto := Heap.NULL, payload := .none }],
    local_scope := Option.none,
    loc := Option.none }

/-! ## Claims C1 and C9: for-in enumeration

The enumeration-order claim (C1) is settled as a code bug: the key drain
of `ForInStatement::interpret` iterates a `std` `HashSet`, so the
insertion order the spec promises is not guaranteed by the code (see
`setInsert`); no theorem idealizes that order.  Claim C9 is settled at
the per-key loop (`forInKeysRun`), which takes the key sequence as an
explicit argument and is therefore independent of the drain order. -/

/-- The C9 counterexample heap: index 2 holds an array payload of length
1 with no own map properties — the collected key `"6"` has no own
property and `6` is not a live index of the storage. -/
def hC9arr : Heap :=
  { objects :=
      [default,
       { properties := [], proto := Heap.NULL, payload := .none },
       { properties := [], proto := Heap.NULL,
         payload := .array [.number (.int 9)] }],
    local_scope := Option.none,
    loc := Option.none }

/-- `256 >>> 0` as a program. -/
def progC2 : Program := mkProgram [] [] [sExpr (eBin .GtGtGt (eNum 256) (eNum 0))]

def hC10w : Heap :=
  { objects :=
      [default,
       { properties := [("x", ⟨.undefined, Access.full⟩)],
         proto := Heap.NULL,
         payload := .none }],
    local_scope := Option.none,
    loc := Option.none }

theorem finalizeOnce_cases (I : Interp) (fin : Option BlockStatement)
    (r : Outcome Interpreted) :
    finalizeOnce I fin r =
      match r with
      | .ok i h₂ => (run_finalizer I fin h₂).then fun _ h => Outcome.ok i h
      | .err e₂ h₂ => (run_finalizer I fin h₂).then fun _ h => Outcome.err e₂ h
      | .rtPanic m => .rtPanic m
      | .outOfFuel => .outOfFuel := by
  cases r <;> rfl

/-- The factoring lemma: the code's try rule equals "try/catch part, then
one finalizer run with supersede semantics". -/
theorem tryInterpret_eq (I : Interp) (t : TryStatement) (h : Heap) :
    tryInterpret I t h = finalizeOnce I t.finalizer (tryCatchPart I t h) := by
  unfold tryInterpret tryCatchPart
  cases blockInterpret I t.block h with
  | rtPanic m => rfl
  | outOfFuel => rfl
  | ok i h' => rfl
  | err e h' => cases e <;> rfl

/-- C3: for every try statement with a finalizer, the finalizer block runs
exactly once on every exit path — the try rule factors as the try/catch
part followed by exactly one `finalizeOnce` application, in which a
finalizer exception supersedes the pending result or exception.
Concretely: the finalizer's counter reads 1 after a normal completion,
after an uncaught throw, after a caught throw, and after a `return` jump;
and `try { throw "a" } finally { throw "b" }` fails with `"b"`. -/
theorem c3_try_finalizer_once :
    (∀ (n : Nat) (t : TryStatement) (loc : Option Location) (h : Heap),
        interpStmt (n + 1) (.mk (.Try t) loc) h =
          finalizeOnce (interpFuel n) t.finalizer
            (tryCatchPart (interpFuel n) t { h with loc := loc }))
    ∧ (runProgram 100 progC3normal).value? = some (.number (.int 1))
    ∧ ((runProgram 100 progC3throw).error? = some (.UserThrown (.string "boom"))
        ∧ globalProp (runProgram 100 progC3throw) "n" = some (.number (.int 1)))
    ∧ ((runProgram 100 progC3caught).value? = some (.string "e!")
        ∧ globalProp (runProgram 100 progC3caught) "n" = some (.number (.int 1)))
    ∧ (runProgram 100 progC3return).value? = some (.number (.int 11))
    ∧ (runProgram 100 progC3supersede).error? = some (.UserThrown (.string "b")) := by
  refine ⟨?_, rfl, ⟨rfl, rfl⟩, ⟨rfl, rfl⟩, rfl, rfl⟩
  intro n t loc h
  exact tryInterpret_eq (interpFuel n) t { h with loc := loc }

/-- C4: a `Jump` raised by the protected block of a try statement with a
catch handler is never passed to the handler: the whole statement's result
is `finalizeOnce` applied to the jump itself — the finalizer (if any) runs
and the jump propagates unchanged (unless the finalizer raises), and the
handler does not appear in the result at all. -/
theorem c4_jump_not_caught :
    ∀ (n : Nat) (t : TryStatement) (cc : CatchClause) (loc : Option Location)
      (h h₁ : Heap) (j : Jump),
      t.handler = some cc →
      blockInterpret (interpFuel n) t.block { h with loc := loc } = .err (.Jump j) h₁ →
      interpStmt (n + 1) (.mk (.Try t) loc) h =
        finalizeOnce (interpFuel n) t.finalizer (.err (.Jump j) h₁) := by
  intro n t cc loc h h₁ j _ hblock
  show tryInterpret (interpFuel n) t { h with loc := loc } = _
  unfold tryInterpret
  rw [hblock]
  rfl

/-! ## Claim C6: switch semantics -/

/-- Sequencing is associative on `Outcome`. -/
theorem Outcome.then_assoc {α β γ : Type} (o : Outcome α) (f : α → Heap → Outcome β)
    (g : β → Heap → Outcome γ) :
    (o.then f).then g = o.then (fun a h => (f a h).then g) := by
  cases o <;> rfl

/-- Pointwise congruence for `Outcome.then`. -/
theorem Outcome.then_congr {α β : Type} (o : Outcome α) (f g : α → Heap → Outcome β)
    (H : ∀ a h, f a h = g a h) : o.then f = o.then g := by
  cases o with
  | ok a h' => exact H a h'
  | err e h' => rfl
  | rtPanic m => rfl
  | outOfFuel => rfl

/-- Congruence for `Outcome.then` when the continuations agree on the
actual value produced. -/
theorem Outcome.then_eq_of {α β : Type} (o : Outcome α) (f g : α → Heap → Outcome β)
    (H : ∀ a h', o = .ok a h' → f a h' = g a h') : o.then f = o.then g := by
  cases o with
  | ok a h' => exact H a h' rfl
  | err e h' => rfl
  | rtPanic m => rfl
  | outOfFuel => rfl

/-- The spec-side first-match scan is the code-side scan with the default
component dropped (for any accumulator). -/
theorem switchFirstMatch_eq (I : Interp) (v : JSValue) :
    ∀ (cs : List SwitchCase) (i : Nat) (dflt : Option Nat) (h : Heap),
      switchFirstMatch I v cs i h
        = (switchSearchRun I v cs i dflt h).then fun fd h => .ok fd.1 h := by
  intro cs
  induction cs with
  | nil => intro i dflt h; rfl
  | cons c rest ih =>
      intro i dflt h
      unfold switchFirstMatch switchSearchRun
      cases c.test with
      | none => exact ih (i + 1) (some i) h
      | some t =>
          rw [Outcome.then_assoc]
          apply Outcome.then_eq_of
          intro cv h₁ _
          by_cases hb : JSValue.strict_eq v cv = true
          · simp only [hb, if_true]
            rfl
          · simp only [Bool.not_eq_true] at hb
            simp only [hb, Bool.false_eq_true, if_false]
            exact ih (i + 1) dflt h₁

/-- When the code-side scan finds no match, its accumulated default index
is the pure fold `lastDefaultFrom`. -/
theorem switchSearchRun_default (I : Interp) (v : JSValue) :
    ∀ (cs : List SwitchCase) (i : Nat) (dflt : Option Nat) (h : Heap)
      (d : Option Nat) (h' : Heap),
      switchSearchRun I v cs i dflt h = .ok (Option.none, d) h' →
      d = lastDefaultFrom i dflt cs := by
  intro cs
  induction cs with
  | nil =>
      intro i dflt h d h' heq
      cases heq
      rfl
  | cons c rest ih =>
      intro i dflt h d h' heq
      unfold switchSearchRun at heq
      unfold lastDefaultFrom
      cases hct : c.test with
      | none =>
          rw [hct] at heq
          simp only [Option.isNone_none, if_true]
          exact ih (i + 1) (some i) h d h' heq
      | some t =>
          rw [hct] at heq
          dsimp only at heq
          simp only [Option.isNone_some, Bool.false_eq_true, if_false]
          cases hE : evaluate I t h with
          | ok cv h₁ =>
              rw [hE] at heq
              simp only [Outcome.then] at heq
              by_cases hb : JSValue.strict_eq v cv = true
              · simp only [hb, if_true] at heq
                simp at heq
              · simp only [Bool.not_eq_true] at hb
                simp only [hb, Bool.false_eq_true, if_false] at heq
                exact ih (i + 1) dflt h₁ d h' heq
          | err e h₁ => rw [hE] at heq; simp [Outcome.then] at heq
          | rtPanic m => rw [hE] at heq; simp [Outcome.then] at heq
          | outOfFuel => rw [hE] at heq; simp [Outcome.then] at heq

/-- If no case of the scanned list is a default, the accumulated default
is unchanged. -/
theorem lastDefaultFrom_of_no_default :
    ∀ (cs : List SwitchCase) (i : Nat) (dflt : Option Nat),
      (∀ c ∈ cs, c.test.isNone = false) → lastDefaultFrom i dflt cs = dflt := by
  intro cs
  induction cs with
  | nil => intro i dflt _; rfl
  | cons c rest ih =>
      intro i dflt hno
      unfold lastDefaultFrom
      rw [hno c (List.mem_cons_self c rest)]
      simp only [Bool.false_eq_true, if_false]
      exact ih (i + 1) dflt fun x hx => hno x (List.mem_cons_of_mem c hx)

/-- With at most one default case, the scan's accumulated (last) default
equals the first default of the claim's wording. -/
theorem lastDefaultFrom_eq_defaultIndex :
    ∀ (cs : List SwitchCase) (i : Nat),
      (cs.filter (fun c => c.test.isNone)).length ≤ 1 →
      lastDefaultFrom i Option.none cs = defaultIndex cs i := by
  intro cs
  induction cs with
  | nil => intro i _; rfl
  | cons c rest ih =>
      intro i huniq
      unfold lastDefaultFrom defaultIndex
      cases hct : c.test.isNone with
      | true =>
          simp only [if_true]
          have hcc : (c :: rest).filter (fun c => c.test.isNone)
              = c :: rest.filter (fun c => c.test.isNone) := by
            simp [List.filter_cons, hct]
          rw [hcc, List.length_cons] at huniq
          have hrest : (rest.filter (fun c => c.test.isNone)).length = 0 :=
            Nat.le_zero.mp (Nat.le_of_succ_le_succ huniq)
          apply lastDefaultFrom_of_no_default
          intro x hx
          by_contra hcon
          simp only [Bool.not_eq_false] at hcon
          have hmem : x ∈ rest.filter (fun c => c.test.isNone) :=
            List.mem_filter.mpr ⟨hx, hcon⟩
          rw [List.length_eq_zero] at hrest
          rw [hrest] at hmem
          cases hmem
      | false =>
          simp only [Bool.false_eq_true, if_false]
          apply ih
          have hcc : (c :: rest).filter (fun c => c.test.isNone)
              = rest.filter (fun c => c.test.isNone) := by
            simp [List.filter_cons, hct]
          rw [hcc] at huniq
          exact huniq

/-- Running a flat statement list split at an append point equals running
the first part as one consequent and continuing with the rest unless a
break occurred. -/
theorem switchSpecRunStmts_append (I : Interp) :
    ∀ (xs ys : List Statement) (h : Heap),
      switchSpecRunStmts I (xs ++ ys) h
        = (switchConsequentRun I xs h).then fun brk h =>
            if brk then .ok Interpreted.VOID h else switchSpecRunStmts I ys h := by
  intro xs
  induction xs with
  | nil => intro ys h; rfl
  | cons s rest ih =>
      intro ys h
      rw [List.cons_append]
      rw [switchSpecRunStmts, switchConsequentRun]
      cases hS : I.stmt s h with
      | ok a h₁ => exact ih ys h₁
      | err e h₁ =>
          cases e <;> try rfl
          case Jump j =>
            cases j <;> try rfl
            case Break l => cases l <;> rfl
      | rtPanic m => rfl
      | outOfFuel => rfl

/-- The code's nested execution loops equal the flattened spec-side run. -/
theorem switchCasesRun_eq (I : Interp) :
    ∀ (cs : List SwitchCase) (h : Heap),
      switchCasesRun I cs h
        = switchSpecRunStmts I ((cs.map SwitchCase.consequent).flatten) h := by
  intro cs
  induction cs with
  | nil => intro h; rfl
  | cons c rest ih =>
      intro h
      rw [List.map_cons, List.flatten_cons]
      unfold switchCasesRun
      rw [switchSpecRunStmts_append]
      apply Outcome.then_eq_of
      intro brk h₁ _
      cases brk with
      | true => rfl
      | false => exact ih h₁

/-- C6: for a switch statement with at most one default case, the code's
two-phase interpretation equals the claim's description: the discriminant
is evaluated once; the non-default tests are evaluated in source order
with strict equality until the first match; the first match — or, when
none matches, the default if present — selects the restart index; the
consequents from the restart index to the end run flattened, an unlabeled
break terminating the switch normally; with no match and no default no
consequent runs.  Concretely, `switch (2)` over cases 1..4 plus default
yields `"bc"` (fall-through stopped by `break`), and a no-match,
no-default switch runs nothing. -/
theorem c6_switch_semantics :
    (∀ (n : Nat) (sw : SwitchStatement) (loc : Option Location) (h : Heap),
      (sw.cases.filter (fun c => c.test.isNone)).length ≤ 1 →
      interpStmt (n + 1) (.mk (.Switch sw) loc) h
        = switchSpec (interpFuel n) sw { h with loc := loc })
    ∧ (runProgram 200 progC6).value? = some (.string "bc")
    ∧ (runProgram 200 progC6b).value? = some (.string "z") := by
  refine ⟨?_, rfl, rfl⟩
  intro n sw loc h huniq
  show switchInterpret (interpFuel n) sw { h with loc := loc } = _
  unfold switchInterpret switchSpec
  apply Outcome.then_eq_of
  intro v h₁ _
  rw [switchFirstMatch_eq (I := interpFuel n) (v := v) sw.cases 0 Option.none h₁,
    Outcome.then_assoc]
  apply Outcome.then_eq_of
  intro fd h₂ hfd
  obtain ⟨found, d⟩ := fd
  cases found with
  | some m =>
      simp only [Outcome.then, Option.or_some, Option.getD_some]
      exact switchCasesRun_eq (interpFuel n) (sw.cases.drop m) h₂
  | none =>
      have hd : d = defaultIndex sw.cases 0 := by
        rw [switchSearchRun_default (interpFuel n) v sw.cases 0 Option.none h₁ d h₂ hfd]
        exact lastDefaultFrom_eq_defaultIndex sw.cases 0 huniq
      subst hd
      simp only [Outcome.then, Option.none_or]
      cases hdi : defaultIndex sw.cases 0 with
      | some r =>
          simp only [Option.getD_some]
          exact switchCasesRun_eq (interpFuel n) (sw.cases.drop r) h₂
      | none =>
          simp only [Option.getD_none, List.drop_length]
          rfl

theorem c6_switch_semantics_witness :
    (swC6.cases.filter (fun c => c.test.isNone)).length ≤ 1
    ∧ interpStmt 20 (.mk (.Switch swC6) Option.none) Heap.new
        = switchSpec (interpFuel 19) swC6 { Heap.new with loc := (Option.none : Option Location) } :=
  ⟨by decide, c6_switch_semantics.1 19 swC6 Option.none Heap.new (by decide)⟩

theorem newInterpret_eq_newSpec (I : Interp) (ce : Expression) (aes : List Expression)
    (h : Heap) : newInterpret I ce aes h = newSpec I ce aes h := by
  unfold newInterpret newSpec
  apply Outcome.then_congr
  intro arguments h₁
  apply Outcome.then_congr
  intro callee h₂
  apply Outcome.then_congr
  intro funcref h₃
  apply Outcome.then_congr
  intro prototype_ref h₄
  dsimp only [Heap.alloc]
  apply Outcome.then_congr
  intro result h₅
  cases result with
  | Member of name => rfl
  | Value v =>
      cases v <;> try rfl
      case ref r =>
        by_cases hr : r = Heap.NULL
        · simp [chooseNewResult, isNonNullObjectRef, hr]
        · simp [chooseNewResult, isNonNullObjectRef, hr]

/-- C5: the `new` evaluation rule equals the claim's description (callee to
object reference; own `prototype` read, TypeError if absent; fresh object
with that proto; call with `this` bound to it; result chosen by the
non-null-object-reference rule).  Concretely, the constructor scenario of
spec §8.6 evaluates to 3, and `new` on a plain object raises the missing-
`prototype` TypeError. -/
theorem c5_new_expression :
    (∀ (n : Nat) (ce : Expression) (aes : List Expression) (loc : Option Location)
        (h : Heap),
        interpExpr (n + 1) (.mk (.New (.mk ce aes)) loc) h
          = newSpec (interpFuel n) ce aes { h with loc := loc })
    ∧ (runProgram 200 progC5).value? = some (.number (.int 3))
    ∧ (runProgram 200 progC5err).error?
        = some (.TypeErrorCannotGetProperty (.Member 1 "o") "prototype") := by
  refine ⟨?_, rfl, rfl⟩
  intro n ce aes loc h
  exact newInterpret_eq_newSpec (interpFuel n) ce aes { h with loc := loc }

theorem putValueIgnored_eq_writeBackSpec (assignee : Interpreted) (v : JSValue)
    (h : Heap) : assignee.putValueIgnored v h = writeBackSpec assignee v h := by
  unfold Interpreted.putValueIgnored writeBackSpec
  cases assignee.put_value v h with
  | ok h' => rfl
  | error e => cases e <;> rfl

theorem assignInterpret_eq_assignSpec (I : Interp) (lhs : Expression)
    (modop : Option BinOp) (rhs : Expression) (h : Heap) :
    assignInterpret I lhs modop rhs h = assignSpec I lhs modop rhs h := by
  unfold assignInterpret assignSpec
  apply Outcome.then_congr
  intro value h₁
  apply Outcome.then_congr
  intro assignee h₂
  apply Outcome.then_congr
  intro newvalue h₃
  rw [putValueIgnored_eq_writeBackSpec]

/-- C7: the assignment rule equals the claim's description (RHS first, LHS
as lvalue, compound combine, silent-readonly write-back, value is the new
value).  Concretely, the RHS call is observed before the LHS call
(`"RL"`), `x += 4` evaluates to 7, and `o.x = 5` on a read-only `x` raises
nothing, leaves the heap unchanged, and still evaluates to 5. -/
theorem c7_assignment :
    (∀ (n : Nat) (lhs : Expression) (op : Option BinOp) (rhs : Expression)
        (loc : Option Location) (h : Heap),
        interpExpr (n + 1) (.mk (.Assign (.mk lhs (.mk op) rhs)) loc) h
          = assignSpec (interpFuel n) lhs op rhs { h with loc := loc })
    ∧ (runProgram 200 progC7ord).value? = some (.string "RL2")
    ∧ (runProgram 100 progC7compound).value? = some (.number (.int 7))
    ∧ interpExpr 5 (eAssign (eMember (eId "o") "x") (eNum 5)) heapC7
        = .ok (.Value (.number (.int 5))) heapC7
    ∧ (heapC7.getObj 2).getProp "x"
        = some ⟨.number (.int 1), ⟨false, true, true⟩⟩ := by
  refine ⟨?_, rfl, rfl, rfl, rfl⟩
  intro n lhs op rhs loc h
  exact assignInterpret_eq_assignSpec (interpFuel n) lhs op rhs { h with loc := loc }

/-! ## Claim C10: variable declarations and hoisting -/

theorem getObj_set (h : Heap) (j : Nat) (o : JSObject) (r : Nat) :
    (h.setObj j o).getObj r = if j = r ∧ j < h.objects.length then o else h.getObj r := by
  simp only [Heap.setObj, Heap.getObj, List.getD, List.get?_eq_getElem?, List.getElem?_set]
  by_cases h1 : j = r
  · subst h1
    by_cases h2 : j < h.objects.length
    · simp [h2]
    · simp only [h2, if_true, if_false, and_false, ite_false, and_true, true_and]
      rw [List.getElem?_eq_none (Nat.le_of_not_lt h2)]
  · simp [h1]

theorem getObj_set_ne (h : Heap) (j : Nat) (o : JSObject) (r : Nat) (hne : j ≠ r) :
    (h.setObj j o).getObj r = h.getObj r := by
  rw [getObj_set, if_neg (fun hand => hne hand.1)]

theorem setObj_local_scope (h : Heap) (j : Nat) (o : JSObject) :
    (h.setObj j o).local_scope = h.local_scope := rfl

theorem setObj_length (h : Heap) (j : Nat) (o : JSObject) :
    (h.setObj j o).objects.length = h.objects.length := by
  simp [Heap.setObj]

theorem getObj_alloc (h : Heap) (o : JSObject) (r : Nat) (hr : r < h.objects.length) :
    ((h.alloc o).2).getObj r = h.getObj r := by
  simp only [Heap.alloc, Heap.getObj, List.getD, List.get?_eq_getElem?]
  rw [List.getElem?_append_left hr]

/-- `updateProps` never removes a key: a present binding stays present. -/
theorem updateProps_lookup_isSome (l : List (String × Property)) (n : String)
    (p : Property) (name : String) (hl : (List.lookup name l).isSome = true) :
    (List.lookup name (updateProps l n p)).isSome = true := by
  induction l with
  | nil => simp [List.lookup] at hl
  | cons kv rest ih =>
      obtain ⟨k, q⟩ := kv
      by_cases hkn : k = n
      · subst hkn
        simp only [updateProps, if_pos rfl]
        by_cases hnk : name = k
        · simp [List.lookup, hnk]
        · have hbk : (name == k) = false := by simp [hnk]
          simp only [List.lookup, hbk] at hl ⊢
          exact hl
      · simp only [updateProps, if_neg hkn]
        by_cases hnk : name = k
        · simp [List.lookup, hnk]
        · have hbk : (name == k) = false := by simp [hnk]
          simp only [List.lookup, hbk] at hl ⊢
          exact ih hl

/-- `updateProps` of a present key overwrites in place: the key list is
unchanged — no new binding is created. -/
theorem updateProps_map_fst (l : List (String × Property)) (n : String) (p q : Property)
    (hl : List.lookup n l = some q) :
    (updateProps l n p).map Prod.fst = l.map Prod.fst := by
  induction l with
  | nil => simp [List.lookup] at hl
  | cons kv rest ih =>
      obtain ⟨k, r⟩ := kv
      by_cases hkn : k = n
      · subst hkn
        simp [updateProps]
      · simp only [updateProps, if_neg hkn, List.map_cons, List.cons.injEq, true_and]
        apply ih
        have hbk : (n == k) = false := by simp [Ne.symm hkn]
        simp only [List.lookup, hbk] at hl
        exact hl

/-- A successful `setPropertyPlain` preserves the payload and every present
binding. -/
theorem setPropertyPlain_preserves (o o' : JSObject) (k : String) (v : JSValue)
    (heq : o.setPropertyPlain k v = .ok o') :
    o'.payload = o.payload
    ∧ ∀ name, ((o.getProp name).isSome = true) → ((o'.getProp name).isSome = true) := by
  unfold JSObject.setPropertyPlain at heq
  cases hk : o.getProp k with
  | some p =>
      rw [hk] at heq
      by_cases hw : p.access.write = true
      · simp only [hw, if_true] at heq
        cases heq
        refine ⟨rfl, ?_⟩
        intro name hname
        exact updateProps_lookup_isSome o.properties k { p with content := v } name hname
      · simp only [Bool.not_eq_true] at hw
        simp [hw] at heq
  | none =>
      rw [hk] at heq
      cases heq
      refine ⟨rfl, ?_⟩
      intro name hname
      unfold JSObject.getProp at hname ⊢
      rw [List.lookup_append]
      obtain ⟨x, hx⟩ := Option.isSome_iff_exists.mp hname
      rw [hx]
      rfl

theorem declareVars_local_scope : ∀ (vars : List String) (h : Heap),
    (h.declareVars vars).local_scope = h.local_scope := by
  intro vars
  induction vars with
  | nil => intro h; rfl
  | cons v rest ih =>
      intro h
      rw [Heap.declareVars]
      split
      · exact ih h
      · rw [ih]
        rfl

theorem declareVars_length : ∀ (vars : List String) (h : Heap),
    (h.declareVars vars).objects.length = h.objects.length := by
  intro vars
  induction vars with
  | nil => intro h; rfl
  | cons v rest ih =>
      intro h
      rw [Heap.declareVars]
      split
      · exact ih h
      · rw [ih, setObj_length]

theorem declareVars_payload : ∀ (vars : List String) (h : Heap) (r : Nat),
    ((h.declareVars vars).getObj r).payload = (h.getObj r).payload := by
  intro vars
  induction vars with
  | nil => intro h r; rfl
  | cons v rest ih =>
      intro h r
      rw [Heap.declareVars]
      split
      · exact ih h r
      · rw [ih, getObj_set]
        by_cases hc : h.local_scope.getD Heap.GLOBAL = r
            ∧ h.local_scope.getD Heap.GLOBAL < h.objects.length
        · rw [if_pos hc]
          obtain ⟨hc1, _⟩ := hc
          subst hc1
          rfl
        · rw [if_neg hc]

theorem declareVars_keeps : ∀ (vars : List String) (h : Heap) (name : String),
    ((h.getObj (h.local_scope.getD Heap.GLOBAL)).getProp name).isSome = true →
    (((h.declareVars vars).getObj (h.local_scope.getD Heap.GLOBAL)).getProp name).isSome
      = true := by
  intro vars
  induction vars with
  | nil => intro h name hs; exact hs
  | cons v rest ih =>
      intro h name hs
      rw [Heap.declareVars]
      split
      · exact ih h name hs
      · have := ih (h.setObj (h.local_scope.getD Heap.GLOBAL)
          { h.getObj (h.local_scope.getD Heap.GLOBAL) with properties :=
              (h.getObj (h.local_scope.getD Heap.GLOBAL)).properties
                ++ [(v, (⟨.undefined, Access.full⟩ : Property))] }) name ?_
        · exact this
        · rw [setObj_local_scope, getObj_set]
          by_cases hc : h.local_scope.getD Heap.GLOBAL < h.objects.length
          · rw [if_pos ⟨rfl, hc⟩]
            unfold JSObject.getProp at hs ⊢
            rw [List.lookup_append]
            obtain ⟨x, hx⟩ := Option.isSome_iff_exists.mp hs
            rw [hx]
            rfl
          · rw [if_neg (fun hand => hc hand.2)]
            exact hs

theorem declareVars_establishes : ∀ (vars : List String) (h : Heap) (name : String),
    name ∈ vars →
    h.local_scope.getD Heap.GLOBAL < h.objects.length →
    (((h.declareVars vars).getObj (h.local_scope.getD Heap.GLOBAL)).getProp name).isSome
      = true := by
  intro vars
  induction vars with
  | nil => intro h name hmem _; cases hmem
  | cons v rest ih =>
      intro h name hmem hlt
      by_cases hr : name ∈ rest
      · rw [Heap.declareVars]
        split
        · exact ih h name hr hlt
        · apply ih
          · exact hr
          · rw [setObj_local_scope, setObj_length]
            exact hlt
      · have hv : name = v := by
          cases List.mem_cons.mp hmem with
          | inl hh => exact hh
          | inr hh => exact absurd hh hr
        subst hv
        rw [Heap.declareVars]
        split
        next hp =>
          apply declareVars_keeps
          rw [hp]
          rfl
        next hp =>
          have := declareVars_keeps rest (h.setObj (h.local_scope.getD Heap.GLOBAL)
            { h.getObj (h.local_scope.getD Heap.GLOBAL) with properties :=
                (h.getObj (h.local_scope.getD Heap.GLOBAL)).properties
                  ++ [(name, (⟨.undefined, Access.full⟩ : Property))] }) name ?_
          · exact this
          · rw [setObj_local_scope, getObj_set, if_pos ⟨rfl, hlt⟩]
            unfold JSObject.getProp at hp ⊢
            rw [List.lookup_append, hp]
            simp [List.lookup]

theorem allocFunction_preserves (h : Heap) (f : Function) (fr : Nat) (h₁ : Heap)
    (heq : h.allocFunction f = .ok (fr, h₁)) :
    h₁.local_scope = h.local_scope
    ∧ h.objects.length ≤ h₁.objects.length
    ∧ ∀ r, r < h.objects.length → h₁.getObj r = h.getObj r := by
  unfold Heap.allocFunction at heq
  dsimp only [Heap.alloc] at heq
  split at heq
  · cases heq
  · split at heq
    · cases heq
    · cases heq
      refine ⟨rfl, ?_, ?_⟩
      · simp [Heap.setObj, List.length_append]
      · intro r hr
        rw [getObj_set_ne _ _ _ _ (by
              simp only [List.length_append, List.length_cons, List.length_nil]
              omega),
          getObj_set_ne _ _ _ _ (by omega)]
        show Heap.getObj { h with objects := (h.objects ++ _) ++ _ } r = h.getObj r
        simp only [Heap.getObj, List.getD, List.get?_eq_getElem?]
        rw [List.getElem?_append_left (by simp; omega),
          List.getElem?_append_left hr]

theorem declareFuncs_preserves : ∀ (funcs : List FunctionDeclaration) (h h' : Heap),
    h.declareFuncs funcs = .ok h' →
    h.local_scope.getD Heap.GLOBAL < h.objects.length →
    (h.getObj (h.local_scope.getD Heap.GLOBAL)).payload = ObjectPayload.none →
    h'.local_scope = h.local_scope
    ∧ h.local_scope.getD Heap.GLOBAL < h'.objects.length
    ∧ (h'.getObj (h.local_scope.getD Heap.GLOBAL)).payload = ObjectPayload.none
    ∧ ∀ name, ((h.getObj (h.local_scope.getD Heap.GLOBAL)).getProp name).isSome = true →
        ((h'.getObj (h.local_scope.getD Heap.GLOBAL)).getProp name).isSome = true := by
  intro funcs
  induction funcs with
  | nil =>
      intro h h' heq hlt hpay
      cases heq
      exact ⟨rfl, hlt, hpay, fun _ hn => hn⟩
  | cons fd rest ih =>
      intro h h' heq hlt hpay
      rw [Heap.declareFuncs] at heq
      split at heq
      · cases heq
      next fref h₁ halloc =>
        obtain ⟨haL, haN, haG⟩ := allocFunction_preserves h fd.function.func fref h₁ halloc
        have hs1 : h₁.local_scope.getD Heap.GLOBAL = h.local_scope.getD Heap.GLOBAL := by
          rw [haL]
        have hobj : h₁.getObj (h₁.local_scope.getD Heap.GLOBAL)
            = h.getObj (h.local_scope.getD Heap.GLOBAL) := by
          rw [hs1]
          exact haG _ hlt
        dsimp only at heq
        split at heq
        next e hset =>
          rw [hobj] at hset
          unfold JSObject.set_property at hset
          rw [hpay] at hset
          cases hsp : (h.getObj (h.local_scope.getD Heap.GLOBAL)).setPropertyPlain
              fd.id (.ref fref) with
          | ok oo => rw [hsp] at hset; cases hset
          | error e2 => rw [hsp] at hset; cases hset; cases heq
        next so' hset =>
          rw [hobj] at hset
          unfold JSObject.set_property at hset
          rw [hpay] at hset
          obtain ⟨hso'pay, hso'keep⟩ := setPropertyPlain_preserves _ so' fd.id (.ref fref) hset
          have hlt1 : h₁.local_scope.getD Heap.GLOBAL < h₁.objects.length := by
            rw [hs1]; omega
          have ih' := ih (h₁.setObj (h₁.local_scope.getD Heap.GLOBAL) so') h' heq ?_ ?_
          · obtain ⟨i1, i2, i3, i4⟩ := ih'
            have hs2 : (h₁.setObj (h₁.local_scope.getD Heap.GLOBAL) so').local_scope
                = h₁.local_scope := rfl
            have hgets : (h₁.setObj (h₁.local_scope.getD Heap.GLOBAL) so').getObj
                ((h₁.setObj (h₁.local_scope.getD Heap.GLOBAL) so').local_scope.getD
                  Heap.GLOBAL) = so' := by
              rw [hs2, getObj_set, if_pos ⟨rfl, hlt1⟩]
            refine ⟨?_, ?_, ?_, ?_⟩
            · rw [i1, hs2, haL]
            · have : (h₁.setObj (h₁.local_scope.getD Heap.GLOBAL)
                  so').local_scope.getD Heap.GLOBAL = h.local_scope.getD Heap.GLOBAL := by
                rw [hs2, hs1]
              rw [← this]
              exact i2
            · have := i3
              rw [hs2, hs1] at this
              exact this
            · intro name hname
              have hname1 : ((((h₁.setObj (h₁.local_scope.getD Heap.GLOBAL) so').getObj
                  ((h₁.setObj (h₁.local_scope.getD Heap.GLOBAL)
                    so').local_scope.getD Heap.GLOBAL)).getProp name).isSome) = true := by
                rw [hgets]
                exact hso'keep name hname
              have := i4 name hname1
              rw [hs2, hs1] at this
              exact this
          · rw [setObj_local_scope, setObj_length]
            exact hlt1
          · rw [setObj_local_scope, getObj_set, if_pos ⟨rfl, hlt1⟩]
            exact hso'pay.trans hpay

/-- C9 (amended): when a collected key's turn comes and it is no longer
an own property of the current object, the per-key loop skips the body
silently (no error, the key only marked visited) exactly when the code's
re-check guard fails — the object has no array payload or the key does
not parse as an integer.  When the object has an array payload and the
key parses as an integer, the body still runs, with no bound check
against the storage length, so an out-of-bounds (dead) index is not
skipped. -/
theorem c9_vanished_key_guard :
    (∀ (I : Interp) (assign : Expression) (body : Statement) (objref : Nat)
        (k : String) (keys visited : List String) (h : Heap),
        k ∉ visited →
        (h.getObj objref).getProp k = Option.none →
        ((h.getObj objref).isArray && (parseIndex k).isSome) = false →
        forInKeysRun I assign body objref (k :: keys) visited h
          = forInKeysRun I assign body objref keys (setInsert visited k) h)
    ∧ (∀ (I : Interp) (assign : Expression) (body : Statement) (objref : Nat)
        (k : String) (n : Nat) (keys visited : List String) (h : Heap),
        k ∉ visited →
        (h.getObj objref).getProp k = Option.none →
        (h.getObj objref).isArray = true →
        parseIndex k = some n →
        forInKeysRun I assign body objref (k :: keys) visited h
          = (I.expr assign h).then fun assignee h =>
            (assignee.putValueIgnored (.number (.int n)) h).then fun _ h =>
            match I.stmt body h with
            | .ok _ h => forInKeysRun I assign body objref keys (setInsert visited k) h
            | .err (.Jump (.Continue Option.none)) h =>
                forInKeysRun I assign body objref keys (setInsert visited k) h
            | .err (.Jump (.Break Option.none)) h => .ok (false, setInsert visited k) h
            | .err e h => .err e h
            | .rtPanic m => .rtPanic m
            | .outOfFuel => .outOfFuel) := by
  constructor
  · intro I assign body objref k keys visited h hnv hprop hguard
    rw [forInKeysRun, if_neg hnv]
    simp only [hprop, hguard]
    rfl
  · intro I assign body objref k n keys visited h hnv hprop harr hpk
    rw [forInKeysRun, if_neg hnv]
    simp only [hprop, harr, hpk]
    rfl

/-- C9 (counterexample to the original claim): on the length-1 array of
`hC9arr`, the collected key `"6"` has vanished as a property and `6` is
not a live index of the storage, yet the per-key loop runs the body for
it — a throwing body makes the iteration fail with that throw instead of
skipping to the next key. -/
theorem c9_out_of_bounds_runs_body :
    (hC9arr.getObj 2).getProp "6" = Option.none
    ∧ (hC9arr.getObj 2).isArray = true
    ∧ parseIndex "6" = some 6
    ∧ ((hC9arr.getObj 2).arrayStorage.getD []).length = 1
    ∧ (forInKeysRun (interpFuel 5) (eId "k") (sThrow (eStr "ran")) 2
        ["6"] [] hC9arr).error?
        = some (.UserThrown (.string "ran")) :=
  ⟨rfl, rfl, rfl, rfl, rfl⟩

/-- C2 (the failing input of the code bug): the code's `>>>` masks the
shift *result* to 5 bits instead of the shift amount — the Rust closure
`|a, b| ((a as u32) >> (b as u32) & 0x1f) as f64` parses as
`((a >> b) & 0x1f)` — so `256 >>> 0` evaluates to `0`, not `256`; by
contrast `<<` and `>>` mask the right operand as the claim (and the spec)
state, and return `256` on the same input. -/
theorem c2_unsigned_shift_result_masked :
    BinOp.compute .GtGtGt (.number (.int 256)) (.number (.int 0)) Heap.new
      = .ok (.number (.int 0))
    ∧ (runProgram 10 progC2).value? = some (.number (.int 0))
    ∧ BinOp.compute .LtLt (.number (.int 256)) (.number (.int 0)) Heap.new
      = .ok (.number (.int 256))
    ∧ BinOp.compute .GtGt (.number (.int 256)) (.number (.int 0)) Heap.new
      = .ok (.number (.int 256))
    ∧ (0 : Int) ≠ 256 :=
  ⟨rfl, rfl, rfl, rfl, by decide⟩

/-- C8: for an identifier that resolves to no binding in any scope (and
whose global fallback member also dereferences to nothing), the bare
identifier evaluates to the lvalue `Member { of: GLOBAL, name }` without
failing, and `typeof` on it yields the string `"undefined"` and raises no
exception. -/
theorem c8_typeof_unresolved :
    ∀ (n : Nat) (name : String) (loc loc' : Option Location) (h : Heap),
      h.lookup_var name = Option.none →
      h.lookupValueAt Heap.GLOBAL name = Option.none →
      interpExpr (n + 1) (.mk (.Identifier name) loc) h
          = .ok (.Member Heap.GLOBAL name) { h with loc := loc }
      ∧ interpExpr (n + 2)
          (.mk (.Unary (.mk .Typeof (.mk (.Identifier name) loc))) loc') h
          = .ok (.Value (.string "undefined")) { h with loc := loc } := by
  intro n name loc loc' h hvar hglob
  have hid : ∀ (m : Nat) (l0 : Option Location),
      exprInterpret (interpFuel m) (.mk (.Identifier name) loc) { h with loc := l0 }
        = .ok (.Member Heap.GLOBAL name) { h with loc := loc } := by
    intro m l0
    have hvar' : Heap.lookup_var { h with loc := loc } name = Option.none := hvar
    show Outcome.ok
        ((Heap.lookup_var { h with loc := loc } name).getD (.Member Heap.GLOBAL name))
        { h with loc := loc } = _
    rw [hvar']
    rfl
  constructor
  · exact hid n loc'
  · show unaryInterpret (interpFuel (n + 1)) .Typeof (.mk (.Identifier name) loc)
        { h with loc := loc' } = _
    have hid2 : (interpFuel (n + 1)).expr (.mk (.Identifier name) loc) { h with loc := loc' }
        = .ok (.Member Heap.GLOBAL name) { h with loc := loc } := hid n loc'
    have hglob' : Heap.lookupValueAt { h with loc := loc } Heap.GLOBAL name
        = Option.none := hglob
    unfold unaryInterpret
    rw [hid2]
    simp only [Outcome.then, Interpreted.to_value, hglob', Option.getD]
    rfl

theorem c8_typeof_unresolved_witness :
    Heap.new.lookup_var "nosuch" = Option.none
    ∧ Heap.new.lookupValueAt Heap.GLOBAL "nosuch" = Option.none
    ∧ interpExpr 1 (.mk (.Identifier "nosuch") Option.none) Heap.new
        = .ok (.Member Heap.GLOBAL "nosuch") Heap.new
    ∧ interpExpr 2
        (.mk (.Unary (.mk .Typeof (.mk (.Identifier "nosuch") Option.none)))
          Option.none) Heap.new
        = .ok (.Value (.string "undefined")) Heap.new :=
  ⟨rfl, rfl,
   (c8_typeof_unresolved 0 "nosuch" Option.none Option.none Heap.new rfl rfl).1,
   (c8_typeof_unresolved 0 "nosuch" Option.none Option.none Heap.new rfl rfl).2⟩

theorem c4_jump_not_caught_witness :
    c4try.handler = some (.mk "e" (sBlock []))
    ∧ blockInterpret (interpFuel 5) c4try.block
        { Heap.new with loc := (Option.none : Option Location) }
        = .err (.Jump (.Break Option.none)) c4heap1
    ∧ interpStmt 6 (.mk (.Try c4try) Option.none) Heap.new =
        finalizeOnce (interpFuel 5) c4try.finalizer
          (.err (.Jump (.Break Option.none)) c4heap1) :=
  ⟨rfl, rfl,
   c4_jump_not_caught 5 c4try (.mk "e" (sBlock [])) Option.none Heap.new c4heap1
     (.Break Option.none) rfl rfl⟩

/-! ## Claim C10: variable declarations and hoisting (evaluator layer) -/


theorem lookup_var_of_own (h : Heap) (name : String)
    (hnn : h.local_scope.getD Heap.GLOBAL ≠ Heap.NULL)
    (hpay : (h.getObj (h.local_scope.getD Heap.GLOBAL)).payload = ObjectPayload.none)
    (hprop : ((h.getObj (h.local_scope.getD Heap.GLOBAL)).getProp name).isSome = true) :
    h.lookup_var name = some (.Member (h.local_scope.getD Heap.GLOBAL) name) := by
  obtain ⟨p, hp⟩ := Option.isSome_iff_exists.mp hprop
  have hval : (getObjIn h.objects (h.local_scope.getD Heap.GLOBAL)).get_own_value name
      = some p.content := by
    show (h.getObj (h.local_scope.getD Heap.GLOBAL)).get_own_value name = _
    unfold JSObject.get_own_value
    rw [hpay, hp]
    rfl
  unfold Heap.lookup_var
  rw [scopeWalkIn, ownerWalkIn, if_neg hnn, hval]
  rfl

theorem declare_establishes_binding (vars : List String)
    (funcs : List FunctionDeclaration) (h h' : Heap) (name : String)
    (heq : h.declare vars funcs = .ok h')
    (hmem : name ∈ vars)
    (hnn : h.local_scope.getD Heap.GLOBAL ≠ Heap.NULL)
    (hlt : h.local_scope.getD Heap.GLOBAL < h.objects.length)
    (hpay : (h.getObj (h.local_scope.getD Heap.GLOBAL)).payload = ObjectPayload.none) :
    h'.lookup_var name = some (.Member (h.local_scope.getD Heap.GLOBAL) name) := by
  unfold Heap.declare at heq
  have h1ls : (h.declareVars vars).local_scope = h.local_scope :=
    declareVars_local_scope vars h
  have h1s : (h.declareVars vars).local_scope.getD Heap.GLOBAL
      = h.local_scope.getD Heap.GLOBAL := by rw [h1ls]
  have h1len : (h.declareVars vars).objects.length = h.objects.length :=
    declareVars_length vars h
  have h1lt : (h.declareVars vars).local_scope.getD Heap.GLOBAL
      < (h.declareVars vars).objects.length := by rw [h1s, h1len]; exact hlt
  have h1pay : ((h.declareVars vars).getObj
      ((h.declareVars vars).local_scope.getD Heap.GLOBAL)).payload
      = ObjectPayload.none := by
    rw [h1s, declareVars_payload]
    exact hpay
  have h1prop : (((h.declareVars vars).getObj
      ((h.declareVars vars).local_scope.getD Heap.GLOBAL)).getProp name).isSome = true := by
    rw [h1s]
    exact declareVars_establishes vars h name hmem hlt
  obtain ⟨f1, f2, f3, f4⟩ :=
    declareFuncs_preserves funcs (h.declareVars vars) h' heq h1lt h1pay
  have h2s : h'.local_scope.getD Heap.GLOBAL = h.local_scope.getD Heap.GLOBAL := by
    rw [f1, h1s]
  have := lookup_var_of_own h' name ?_ ?_ ?_
  · rw [h2s] at this
    exact this
  · rw [h2s]
    exact hnn
  · rw [h2s]
    have := f3
    rw [h1s] at this
    exact this
  · rw [h2s]
    have := f4 name h1prop
    rw [h1s] at this
    exact this

theorem variableDecls_panic (I : Interp) (name : String) (initexpr : Expression)
    (rest : List VariableDeclarator) (h h₁ : Heap) (v : JSValue)
    (hEval : evaluate I initexpr h = .ok v h₁)
    (hlook : h₁.lookup_var name = Option.none) :
    variableDeclsRun I (⟨name, some initexpr⟩ :: rest) h
      = .rtPanic ("variable not declared: " ++ name) := by
  simp only [variableDeclsRun, VariableDeclarator.init, VariableDeclarator.name]
  rw [hEval]
  simp only [Outcome.then]
  rw [hlook]

theorem variableDecls_update (I : Interp) (name : String) (initexpr : Expression)
    (h h₁ : Heap) (v : JSValue) (of : Nat) (p : Property)
    (hEval : evaluate I initexpr h = .ok v h₁)
    (hlook : h₁.lookup_var name = some (.Member of name))
    (hp : (h₁.getObj of).getProp name = some p)
    (hw : p.access.write = true)
    (hpay : (h₁.getObj of).payload = ObjectPayload.none) :
    variableDeclsRun I [⟨name, some initexpr⟩] h
      = .ok Interpreted.VOID (h₁.setObj of
          { h₁.getObj of with
            properties :=
              updateProps (h₁.getObj of).properties name { p with content := v } }) := by
  have hsp : (h₁.getObj of).set_property name v
      = .ok { h₁.getObj of with
              properties :=
                updateProps (h₁.getObj of).properties name { p with content := v } } := by
    unfold JSObject.set_property
    rw [hpay]
    show (h₁.getObj of).setPropertyPlain name v = _
    unfold JSObject.setPropertyPlain
    rw [hp]
    dsimp only
    rw [if_pos hw]
  simp only [variableDeclsRun, VariableDeclarator.init, VariableDeclarator.name]
  rw [hEval]
  simp only [Outcome.then]
  rw [hlook]
  dsimp only
  rw [hsp]

/-- **C10** — A `var` declarator with an initializer panics (a process
abort, not a catchable `Exception`) when scope lookup finds no binding for
the declared name; after `declare` has hoisted the name (as `Program` and
function activations do), the lookup finds the hoisted binding in the
declaring scope, so the panic branch is unreachable, and the initializer's
value is written into that existing binding in place, creating no new
binding (the property-key list is unchanged). -/
theorem c10_var_declaration :
    (∀ (I : Interp) (name : String) (initexpr : Expression)
        (rest : List VariableDeclarator) (h h₁ : Heap) (v : JSValue),
        evaluate I initexpr h = .ok v h₁ →
        h₁.lookup_var name = Option.none →
        variableDeclsRun I (⟨name, some initexpr⟩ :: rest) h
          = .rtPanic ("variable not declared: " ++ name))
    ∧ (∀ (vars : List String) (funcs : List FunctionDeclaration) (h h' : Heap)
        (name : String),
        h.declare vars funcs = .ok h' →
        name ∈ vars →
        h.local_scope.getD Heap.GLOBAL ≠ Heap.NULL →
        h.local_scope.getD Heap.GLOBAL < h.objects.length →
        (h.getObj (h.local_scope.getD Heap.GLOBAL)).payload = ObjectPayload.none →
        h'.lookup_var name = some (.Member (h.local_scope.getD Heap.GLOBAL) name))
    ∧ (∀ (I : Interp) (name : String) (initexpr : Expression) (h h₁ : Heap)
        (v : JSValue) (of : Nat) (p : Property),
        evaluate I initexpr h = .ok v h₁ →
        h₁.lookup_var name = some (.Member of name) →
        (h₁.getObj of).getProp name = some p →
        p.access.write = true →
        (h₁.getObj of).payload = ObjectPayload.none →
        variableDeclsRun I [⟨name, some initexpr⟩] h
          = .ok Interpreted.VOID (h₁.setObj of
              { h₁.getObj of with
                properties :=
                  updateProps (h₁.getObj of).properties name
                    { p with content := v } })
        ∧ (updateProps (h₁.getObj of).properties name
              { p with content := v }).map Prod.fst
            = (h₁.getObj of).properties.map Prod.fst) := by
  refine ⟨?_, ?_, ?_⟩
  · intro I name initexpr rest h h₁ v hEval hlook
    exact variableDecls_panic I name initexpr rest h h₁ v hEval hlook
  · intro vars funcs h h' name heq hmem hnn hlt hpay
    exact declare_establishes_binding vars funcs h h' name heq hmem hnn hlt hpay
  · intro I name initexpr h h₁ v of p hEval hlook hp hw hpay
    refine ⟨variableDecls_update I name initexpr h h₁ v of p hEval hlook hp hw hpay, ?_⟩
    exact updateProps_map_fst _ _ _ _ hp

theorem c10_var_declaration_witness :
    variableDeclsRun (interpFuel 3)
        [(⟨"x", some (eNum 5)⟩ : VariableDeclarator)] hC10w
      = .ok Interpreted.VOID (hC10w.setObj 1
          { hC10w.getObj 1 with
            properties :=
              updateProps (hC10w.getObj 1).properties "x"
                ⟨.number (.int 5), Access.full⟩ }) :=
  (c10_var_declaration.2.2 (interpFuel 3) "x" (eNum 5) hC10w hC10w
    (.number (.int 5)) 1 ⟨.undefined, Access.full⟩ rfl rfl rfl rfl rfl).1

end Sljs
